import Mathlib

/-!
Shallow embedding of `src/mongo/db/catalog/index_consistency.cpp`
(`mongo::IndexConsistency`), the two-phase index-consistency checker.

Conventions of the embedding:
* canonical key buffers and type-information buffers (`KeyString::getBuffer`
  and `KeyString::getTypeBits().getBuffer()`) are byte lists;
* the third-party `MurmurHash3_x86_32` and the record store
  (`RecordStore::getCursor` / `seekExact`) are not part of the translated
  source file, so they enter as opaque components of a `Config` record;
* C++ `invariant(...)` failures abort the process, so every operation that
  can hit one returns `Except Fatal`, with one `Fatal` constructor per
  invariant site;
* the C++ `int` counters are modelled as mathematical `Int` / `Nat`
  (the checker never drives them anywhere near the 32-bit range in the
  properties below, and overflow would be C++ UB, not defined behaviour);
* `std::map` / `std::set` members are modelled as association lists /
  duplicate-free lists with the exact lookup, insert and erase discipline
  the source uses; iteration at report time walks the stored order.
-/

namespace Mongo

/-- A byte buffer (such as the canonical key buffer of a `KeyString`). -/
abbrev Buf := List Nat

/-- A `KeyString`: its canonical key buffer (`getBuffer`/`getSize`) and its
type-information buffer (`getTypeBits().getBuffer()/getSize()`). -/
structure KeyString where
  buffer : Buf
  typeBits : Buf
deriving DecidableEq

/-- A BSON element value, as fed to the rehydration step: an opaque payload
identity together with the byte size its encoded element occupies
(`BSONElement::size()` payload portion).  The BSON encoding itself is
external to the translated source. -/
structure BElem where
  val : Nat
  payloadBytes : Nat
deriving DecidableEq

/-- One diagnostic record, the BSON object produced by
`IndexConsistency::_generateInfo`: index name, `RecordId::repr()`, the
optional `_id` key, and the rehydrated field-name to value index key. -/
structure InfoRecord where
  indexName : String
  recordId : Int
  idKey : Option BElem
  indexKey : List (String × BElem)
deriving DecidableEq

/-- The human-readable messages `addIndexEntryErrors` pushes, one
constructor per `StringBuilder` site; `Msg.render` gives the exact text. -/
inductive Msg where
  | truncatedMissing
  | truncatedExtra
  | indexInconsistent (indexName : String)
  | detectedMissing (n : Nat)
  | detectedExtra (n : Nat)
deriving DecidableEq

/-- The exact strings the C++ builds for each message. -/
def Msg.render : Msg → String
  | .truncatedMissing =>
      "Not all missing index entry inconsistencies are listed due to size limitations."
  | .truncatedExtra =>
      "Not all extra index entry inconsistencies are listed due to size limitations."
  | .indexInconsistent indexName =>
      "Index with name \x27" ++ indexName ++ "\x27 has inconsistencies."
  | .detectedMissing n => "Detected " ++ toString n ++ " missing index entries."
  | .detectedExtra n => "Detected " ++ toString n ++ " extra index entries."

/-- The slice of `ValidateResults` this file touches: overall validity,
error and warning lists, and the two diagnostic-record lists. -/
structure ValidateResults where
  valid : Bool
  errors : List Msg
  warnings : List Msg
  missingIndexEntries : List InfoRecord
  extraIndexEntries : List InfoRecord
deriving DecidableEq

/-- Per-index bookkeeping, the `IndexInfo` struct: the descriptor is
represented by the two fields read from it (`indexName()` and the field
names of `keyPattern()`). -/
structure IndexInfo where
  indexName : String
  keyPattern : List String
  isReady : Bool
  indexNameHash : Nat
  indexScanFinished : Bool
  numKeys : Nat
  numLongKeys : Nat
  numRecords : Nat
  hashedMultikeyMetadataPaths : List Nat
deriving DecidableEq

/-- One constructor per C++ `invariant(...)` site reachable from the
modelled operations (plus `invalidHandle` for an out-of-range index
handle, which in C++ would be an invalid pointer). -/
inductive Fatal where
  | invalidHandle
  | notFirstPhase
  | phaseOneActive
  | recordNotFound
  | duplicateMissingKey
  | rehydrateMismatch
deriving DecidableEq

/-- What `record->data.toBson()` yields for a sought record: whether the
document has an `_id` field and, if so, its element. -/
structure RecordData where
  idKey : Option BElem
deriving DecidableEq

/-- External collaborators of the checker: `murmur` models the third-party
`MurmurHash3_x86_32` (a pure 32-bit hash of a byte buffer and a seed), and
`recordStore` models `RecordStore::getCursor(..)->seekExact(recordId)`
(`none` when no record exists, which trips `invariant(record)`). -/
structure Config where
  murmur : Buf → Nat → Nat
  recordStore : Int → Option RecordData

/-- `kNumHashBuckets = 1U << 16`. -/
def kNumHashBuckets : Nat := 1 <<< 16

/-- `IndexConsistency::_hashKeyString`: seed with the index's name hash,
fold in the type-bits buffer, fold in the key buffer, reduce modulo
`kNumHashBuckets`. -/
def hashKeyString (murmur : Buf → Nat → Nat) (ks : KeyString) (indexNameHash : Nat) : Nat :=
  murmur ks.buffer (murmur ks.typeBits indexNameHash) % kNumHashBuckets

/-- Membership test of an association-list map, `std::map::count(key) != 0`. -/
def mapContainsKey (m : List (Buf × α)) (k : Buf) : Bool :=
  m.any fun p => decide (p.1 = k)

/-- Lookup in an association-list map (first binding wins). -/
def lookupVal : List (Buf × α) → Buf → Option α
  | [], _ => none
  | p :: rest, k => if p.1 = k then some p.2 else lookupVal rest k

/-- `std::map::erase(key)`: drop the bindings of `k`. -/
def eraseKey (m : List (Buf × α)) (k : Buf) : List (Buf × α) :=
  m.filter fun p => decide (p.1 ≠ k)

/-- `std::set<BSONObj>::insert`: a no-op when an equal element is present. -/
def setInsertRec (l : List InfoRecord) (r : InfoRecord) : List InfoRecord :=
  if l.any fun x => decide (x = r) then l else l ++ [r]

/-- `std::set<uint32_t>` insert for the hashed multikey path markers. -/
def setInsertNat (l : List Nat) (x : Nat) : List Nat :=
  if l.any fun y => decide (y = x) then l else l ++ [x]

/-- The `_extraIndexEntries` update of `addIndexKey`: start a fresh
singleton set for an unseen key, otherwise insert into the existing set. -/
def extraInsert (m : List (Buf × List InfoRecord)) (k : Buf) (r : InfoRecord) :
    List (Buf × List InfoRecord) :=
  if mapContainsKey m k then
    m.map fun p => if p.1 = k then (p.1, setInsertRec p.2 r) else p
  else m ++ [(k, [r])]

/-- The rehydration loop of `_generateInfo`: walk the declared field names,
`invariant(valuesIt != indexKey.end())` when the values run out first; the
loop stops when the field names run out, so surplus values are unused. -/
def rehydrate : List String → List BElem → Except Fatal (List (String × BElem))
  | [], _ => .ok []
  | _ :: _, [] => .error .rehydrateMismatch
  | k :: ks, v :: vs =>
    match rehydrate ks vs with
    | .error f => .error f
    | .ok rest => .ok ((k, v) :: rest)

/-- `IndexConsistency::_generateInfo` (source name `_generateInfo`): build
the diagnostic record from the index's declared key pattern, the record id,
the positional key values and the optional `_id` key. -/
def generateInfo (info : IndexInfo) (recordId : Int) (indexKey : List BElem)
    (idKey : Option BElem) : Except Fatal InfoRecord :=
  match rehydrate info.keyPattern indexKey with
  | .error f => .error f
  | .ok rk =>
    .ok { indexName := info.indexName, recordId := recordId, idKey := idKey, indexKey := rk }

/-- The `IndexConsistency` state: `_indexKeyCount` (a vector of
`kNumHashBuckets` signed counters, modelled by its contents function),
`_firstPhase`, the two phase-2 maps, and the `_indexesInfo` registry. -/
structure IndexConsistency where
  indexKeyCount : Nat → Int
  firstPhase : Bool
  missingIndexEntries : List (Buf × InfoRecord)
  extraIndexEntries : List (Buf × List InfoRecord)
  indexesInfo : List IndexInfo

/-- Construction-time description of one index: its name, the field names
of its key pattern, and its readiness flag from the durable catalog. -/
structure IndexSpec where
  indexName : String
  keyPattern : List String
  isReady : Bool
deriving DecidableEq

/-- Bytes of an index name, as passed to `MurmurHash3_x86_32`. -/
def strBytes (s : String) : List Nat := s.toList.map Char.toNat

/-- One iteration of the constructor loop: fresh `IndexInfo` with
`indexNameHash = murmur(indexName, 0)` and zeroed counters. -/
def mkIndexInfo (murmur : Buf → Nat → Nat) (d : IndexSpec) : IndexInfo :=
  { indexName := d.indexName
    keyPattern := d.keyPattern
    isReady := d.isReady
    indexNameHash := murmur (strBytes d.indexName) 0
    indexScanFinished := false
    numKeys := 0
    numLongKeys := 0
    numRecords := 0
    hashedMultikeyMetadataPaths := [] }

/-- The `IndexConsistency` constructor: zeroed bucket table
(`_indexKeyCount.resize(kNumHashBuckets)`), `_firstPhase = true`, empty
maps, and one `IndexInfo` per catalog index. -/
def initState (murmur : Buf → Nat → Nat) (descs : List IndexSpec) : IndexConsistency :=
  { indexKeyCount := fun _ => 0
    firstPhase := true
    missingIndexEntries := []
    extraIndexEntries := []
    indexesInfo := descs.map (mkIndexInfo murmur) }

/-- `IndexConsistency::addDocKey`: ignore non-ready indexes; in phase 1
increment the key's bucket and `numRecords`; in phase 2, for a flagged
bucket, seek the record (`invariant(record)`), build the diagnostic record
and insert it into `_missingIndexEntries` after the duplicate-key
`invariant(_missingIndexEntries.count(key) == 0)`. -/
def addDocKey (cfg : Config) (s : IndexConsistency) (ks : KeyString) (i : Nat)
    (recordId : Int) (indexKey : List BElem) : Except Fatal IndexConsistency :=
  match s.indexesInfo[i]? with
  | none => .error .invalidHandle
  | some info =>
    if !info.isReady then .ok s
    else
      let hash := hashKeyString cfg.murmur ks info.indexNameHash
      if s.firstPhase then
        .ok { s with
              indexKeyCount := fun b => if b = hash then s.indexKeyCount b + 1
                                        else s.indexKeyCount b
              indexesInfo := s.indexesInfo.set i
                { info with numRecords := info.numRecords + 1 } }
      else if s.indexKeyCount hash ≠ 0 then
        match cfg.recordStore recordId with
        | none => .error .recordNotFound
        | some record =>
          let idKey := record.idKey
          let key := ks.buffer
          match generateInfo info recordId indexKey idKey with
          | .error f => .error f
          | .ok info2 =>
            if mapContainsKey s.missingIndexEntries key then .error .duplicateMissingKey
            else .ok { s with missingIndexEntries := s.missingIndexEntries ++ [(key, info2)] }
      else .ok s

/-- `IndexConsistency::addIndexKey`: ignore non-ready indexes; in phase 1
decrement the key's bucket and increment `numKeys`; in phase 2, for a
flagged bucket, either reconcile an exact match out of
`_missingIndexEntries` or add the record to `_extraIndexEntries`. -/
def addIndexKey (cfg : Config) (s : IndexConsistency) (ks : KeyString) (i : Nat)
    (recordId : Int) (indexKey : List BElem) : Except Fatal IndexConsistency :=
  match s.indexesInfo[i]? with
  | none => .error .invalidHandle
  | some info =>
    if !info.isReady then .ok s
    else
      let hash := hashKeyString cfg.murmur ks info.indexNameHash
      if s.firstPhase then
        .ok { s with
              indexKeyCount := fun b => if b = hash then s.indexKeyCount b - 1
                                        else s.indexKeyCount b
              indexesInfo := s.indexesInfo.set i
                { info with numKeys := info.numKeys + 1 } }
      else if s.indexKeyCount hash ≠ 0 then
        let key := ks.buffer
        match generateInfo info recordId indexKey none with
        | .error f => .error f
        | .ok info2 =>
          if mapContainsKey s.missingIndexEntries key = false then
            .ok { s with extraIndexEntries := extraInsert s.extraIndexEntries key info2 }
          else
            .ok { s with missingIndexEntries := eraseKey s.missingIndexEntries key }
      else .ok s

/-- Scan of the bucket table used by `haveEntryMismatch`
(`std::any_of(_indexKeyCount.begin(), _indexKeyCount.end(), ...)`). -/
def anyNonzeroBelow (f : Nat → Int) : Nat → Bool
  | 0 => false
  | n + 1 => anyNonzeroBelow f n || decide (f n ≠ 0)

/-- `IndexConsistency::haveEntryMismatch`: some bucket counter nonzero. -/
def haveEntryMismatch (s : IndexConsistency) : Bool :=
  anyNonzeroBelow s.indexKeyCount kNumHashBuckets

/-- `IndexConsistency::setSecondPhase`: `invariant(_firstPhase)`, then
`_firstPhase = false`. -/
def setSecondPhase (s : IndexConsistency) : Except Fatal IndexConsistency :=
  if s.firstPhase then .ok { s with firstPhase := false } else .error .notFirstPhase

/-- `IndexConsistency::addLongIndexKey`: bump `numRecords` and
`numLongKeys` of the index. -/
def addLongIndexKey (info : IndexInfo) : IndexInfo :=
  { info with numRecords := info.numRecords + 1, numLongKeys := info.numLongKeys + 1 }

/-- `IndexConsistency::addMultikeyMetadataPath`: insert the key's hash into
the index's marker set. -/
def addMultikeyMetadataPath (murmur : Buf → Nat → Nat) (ks : KeyString) (info : IndexInfo) :
    IndexInfo :=
  { info with hashedMultikeyMetadataPaths :=
      setInsertNat info.hashedMultikeyMetadataPaths (hashKeyString murmur ks info.indexNameHash) }

/-- `IndexConsistency::removeMultikeyMetadataPath`: erase the key's hash. -/
def removeMultikeyMetadataPath (murmur : Buf → Nat → Nat) (ks : KeyString) (info : IndexInfo) :
    IndexInfo :=
  { info with hashedMultikeyMetadataPaths :=
      info.hashedMultikeyMetadataPaths.filter fun y =>
        decide (y ≠ hashKeyString murmur ks info.indexNameHash) }

/-- `IndexConsistency::getMultikeyMetadataPathCount`: marker-set size. -/
def getMultikeyMetadataPathCount (info : IndexInfo) : Nat :=
  info.hashedMultikeyMetadataPaths.length

/-- `kErrorSizeMB = 1 * 1024 * 1024`, the per-category report byte cap. -/
def kErrorSize : Nat := 1 * 1024 * 1024

/-- Modelled from the spec: the byte size of an encoded BSON element
(`BSONElement::size()`) — the BSON encoding is external to the translated
source.  An element is a type tag, the field name with its terminator, and
the value payload. -/
def bsonElemSize (fieldName : String) (payloadBytes : Nat) : Nat :=
  1 + fieldName.length + 1 + payloadBytes

/-- Modelled from the spec: payload bytes of an encoded BSON object — a
length word, the encoded elements, and a terminator. -/
def bsonObjPayload (fields : List (String × BElem)) : Nat :=
  4 + (fields.map fun f => bsonElemSize f.1 f.2.payloadBytes).sum + 1

/-- `entry["indexKey"].size()` of a diagnostic record. -/
def indexKeyFieldSize (r : InfoRecord) : Nat :=
  bsonElemSize "indexKey" (bsonObjPayload r.indexKey)

/-- `entry["idKey"].size()` when the record has an `idKey` field, else 0. -/
def idKeyFieldSize (r : InfoRecord) : Nat :=
  match r.idKey with
  | none => 0
  | some e => bsonElemSize "idKey" e.payloadBytes

/-- Bytes a missing-entry record counts against the cap: `indexKey` plus
`idKey` when present. -/
def missingPayloadSize (r : InfoRecord) : Nat := indexKeyFieldSize r + idKeyFieldSize r

/-- Bytes an extra-entry record counts against the cap: `indexKey` only. -/
def extraPayloadSize (r : InfoRecord) : Nat := indexKeyFieldSize r

/-- Loop state of one report category in `addIndexEntryErrors`: the running
payload byte count, the size-limit-warning flag, the per-index validity
map (the `valid` view of `indexNsResultsMap`), and the results object. -/
structure ErrAcc where
  accSize : Nat
  warned : Bool
  vmap : String → Bool
  results : ValidateResults

/-- The per-record validity marking: skip (`continue`) when the index is
already invalid, otherwise push the inconsistency error and clear the
index's `valid` flag. -/
def markInvalid (vmap : String → Bool) (results : ValidateResults) (indexName : String) :
    (String → Bool) × ValidateResults :=
  if vmap indexName = false then (vmap, results)
  else
    (fun n => if n = indexName then false else vmap n,
     { results with errors := results.errors ++ [Msg.indexInconsistent indexName] })

/-- One loop iteration of either report category: accumulate the record's
payload bytes; within the cap push the record, at the first overflow push
the one truncation message; then run the validity marking. -/
def entryStep (payloadSize : InfoRecord → Nat) (truncMsg : Msg)
    (pushRec : ValidateResults → InfoRecord → ValidateResults)
    (a : ErrAcc) (r : InfoRecord) : ErrAcc :=
  let size1 := a.accSize + payloadSize r
  let step1 : Bool × ValidateResults :=
    if size1 ≤ kErrorSize then (a.warned, pushRec a.results r)
    else if a.warned = false then
      (true, { a.results with errors := a.results.errors ++ [truncMsg] })
    else (a.warned, a.results)
  let step2 := markInvalid a.vmap step1.2 r.indexName
  { accSize := size1, warned := step1.1, vmap := step2.1, results := step2.2 }

/-- The missing-entries loop body of `addIndexEntryErrors`. -/
def missingStep : ErrAcc → InfoRecord → ErrAcc :=
  entryStep missingPayloadSize Msg.truncatedMissing
    fun res r => { res with missingIndexEntries := res.missingIndexEntries ++ [r] }

/-- The extra-entries loop body of `addIndexEntryErrors`. -/
def extraStep : ErrAcc → InfoRecord → ErrAcc :=
  entryStep extraPayloadSize Msg.truncatedExtra
    fun res r => { res with extraIndexEntries := res.extraIndexEntries ++ [r] }

/-- `IndexConsistency::addIndexEntryErrors`: `invariant(!_firstPhase)`;
count both categories; walk the missing entries then the (flattened) extra
entry sets with the capped loops; push the per-category detection
warnings; clear `results->valid`.  Returns the updated validity map and
results. -/
def addIndexEntryErrors (s : IndexConsistency) (vmap : String → Bool)
    (results : ValidateResults) : Except Fatal ((String → Bool) × ValidateResults) :=
  if s.firstPhase then .error .phaseOneActive
  else
    let numMissingIndexEntryErrors : Nat := s.missingIndexEntries.length
    let numExtraIndexEntryErrors : Nat := (s.extraIndexEntries.map fun p => p.2.length).sum
    let a1 := (s.missingIndexEntries.map Prod.snd).foldl missingStep ⟨0, false, vmap, results⟩
    let a2 := ((s.extraIndexEntries.map Prod.snd).flatten).foldl extraStep
      ⟨0, false, a1.vmap, a1.results⟩
    let results3 :=
      if 0 < numMissingIndexEntryErrors then
        { a2.results with warnings :=
            a2.results.warnings ++ [Msg.detectedMissing numMissingIndexEntryErrors] }
      else a2.results
    let results4 :=
      if 0 < numExtraIndexEntryErrors then
        { results3 with warnings :=
            results3.warnings ++ [Msg.detectedExtra numExtraIndexEntryErrors] }
      else results3
    .ok (a2.vmap, { results4 with valid := false })

/-- The accumulator after the missing-entries loop of
`addIndexEntryErrors` (the `a1` of the definition above). -/
def missingLoop (s : IndexConsistency) (vmap : String → Bool) (results : ValidateResults) :
    ErrAcc :=
  (s.missingIndexEntries.map Prod.snd).foldl missingStep ⟨0, false, vmap, results⟩

/-- The accumulator after the extra-entries loop of `addIndexEntryErrors`
(the `a2` of the definition above). -/
def extraLoop (s : IndexConsistency) (vmap : String → Bool) (results : ValidateResults) :
    ErrAcc :=
  ((s.extraIndexEntries.map Prod.snd).flatten).foldl extraStep
    ⟨0, false, (missingLoop s vmap results).vmap, (missingLoop s vmap results).results⟩

/-- The tail of `addIndexEntryErrors`: the per-category detection-count
warnings and the unconditional `results->valid = false`. -/
def finishReport (s : IndexConsistency) (res : ValidateResults) : ValidateResults :=
  let numMissing : Nat := s.missingIndexEntries.length
  let numExtra : Nat := (s.extraIndexEntries.map fun p => p.2.length).sum
  let res3 :=
    if 0 < numMissing then
      { res with warnings := res.warnings ++ [Msg.detectedMissing numMissing] }
    else res
  let res4 :=
    if 0 < numExtra then
      { res3 with warnings := res3.warnings ++ [Msg.detectedExtra numExtra] }
    else res3
  { res4 with valid := false }

/-- A driver observation: one `addDocKey` or `addIndexKey` call. -/
inductive Event where
  | docKey (ks : KeyString) (idx : Nat) (recordId : Int) (indexKey : List BElem)
  | indexKey (ks : KeyString) (idx : Nat) (recordId : Int) (indexKey : List BElem)
deriving DecidableEq

/-- Dispatch one observation to the corresponding operation. -/
def stepEvent (cfg : Config) (s : IndexConsistency) : Event → Except Fatal IndexConsistency
  | .docKey ks i rid ikey => addDocKey cfg s ks i rid ikey
  | .indexKey ks i rid ikey => addIndexKey cfg s ks i rid ikey

/-- Feed a list of observations to the checker, stopping at a fatal. -/
def runEvents (cfg : Config) : IndexConsistency → List Event → Except Fatal IndexConsistency
  | s, [] => .ok s
  | s, e :: evs =>
    match stepEvent cfg s e with
    | .ok s1 => runEvents cfg s1 evs
    | .error f => .error f

/-- The key string of an observation. -/
def evKS : Event → KeyString
  | .docKey ks _ _ _ => ks
  | .indexKey ks _ _ _ => ks

/-- The index handle of an observation. -/
def evIdx : Event → Nat
  | .docKey _ i _ _ => i
  | .indexKey _ i _ _ => i

/-- Whether an observation is a document-key observation. -/
def isDocEvent : Event → Bool
  | .docKey _ _ _ _ => true
  | .indexKey _ _ _ _ => false

/-- The key buffers of the document-key observations of a stream. -/
def docBuffers (evs : List Event) : List Buf :=
  evs.filterMap fun e =>
    match e with
    | .docKey ks _ _ _ => some ks.buffer
    | .indexKey _ _ _ _ => none

/-- The run-constant fields of an `IndexInfo` (everything the two
observation operations read, as opposed to the counters they write). -/
structure StaticInfo where
  indexName : String
  keyPattern : List String
  isReady : Bool
  indexNameHash : Nat
deriving DecidableEq

/-- Project an `IndexInfo` to its run-constant fields. -/
def staticInfo (info : IndexInfo) : StaticInfo :=
  ⟨info.indexName, info.keyPattern, info.isReady, info.indexNameHash⟩

/-- The bucket a phase-1 observation touches, relative to a registry view:
`none` when the handle is out of range or the index is not ready. -/
def evBucket (cfg : Config) (reg : List StaticInfo) (e : Event) : Option Nat :=
  match reg[evIdx e]? with
  | none => none
  | some si => if si.isReady then some (hashKeyString cfg.murmur (evKS e) si.indexNameHash) else none

/-- The phase-1 contribution of one observation to one bucket counter. -/
def evDelta (cfg : Config) (reg : List StaticInfo) (e : Event) (b : Nat) : Int :=
  match evBucket cfg reg e with
  | some b1 => if b1 = b then (if isDocEvent e then 1 else -1) else 0
  | none => 0

/-- The phase-1 contribution of a stream to one bucket counter. -/
def phase1Delta (cfg : Config) (reg : List StaticInfo) (evs : List Event) (b : Nat) : Int :=
  (evs.map fun e => evDelta cfg reg e b).sum

/-- One perfectly paired observation: a document key and a byte-identical
index key (same key buffer and type-bits buffer) for the same index. -/
structure PairedObs where
  ks : KeyString
  idx : Nat
  docRecordId : Int
  docIndexKey : List BElem
  idxRecordId : Int
  idxIndexKey : List BElem
deriving DecidableEq

/-- The document-key observation of a pair. -/
def docEvent (p : PairedObs) : Event := .docKey p.ks p.idx p.docRecordId p.docIndexKey

/-- The index-key observation of a pair. -/
def idxEvent (p : PairedObs) : Event := .indexKey p.ks p.idx p.idxRecordId p.idxIndexKey

/-- One canonical arrangement of a paired stream; an interleaving is any
permutation of it. -/
def pairedEvents (ps : List PairedObs) : List Event := ps.map docEvent ++ ps.map idxEvent

/-- Readiness and range check of a stream's handles against the
construction-time index list. -/
def eventsReady (descs : List IndexSpec) (evs : List Event) : Bool :=
  evs.all fun e =>
    match descs[evIdx e]? with
    | some d => d.isReady
    | none => false

/-- The records selected by a capped report loop: starting from `acc`
accumulated bytes, a record is kept exactly when the running total stays
within `kErrorSize`; the total keeps accumulating, so once it exceeds the
cap nothing later is kept. -/
def cappedSelect (payloadSize : InfoRecord → Nat) : Nat → List InfoRecord → List InfoRecord
  | _, [] => []
  | acc, r :: rs =>
    if acc + payloadSize r ≤ kErrorSize then r :: cappedSelect payloadSize (acc + payloadSize r) rs
    else cappedSelect payloadSize (acc + payloadSize r) rs

/-- Whether a capped report loop ever pushes its running total past the
cap (the condition under which the one truncation message appears). -/
def exceedsCap (payloadSize : InfoRecord → Nat) : Nat → List InfoRecord → Bool
  | _, [] => false
  | acc, r :: rs =>
    decide (kErrorSize < acc + payloadSize r) || exceedsCap payloadSize (acc + payloadSize r) rs

/-- A concrete stand-in for `MurmurHash3_x86_32`, used to evaluate the
theorems below on concrete inputs. -/
def exMurmur : Buf → Nat → Nat := fun b s => b.foldl (fun a x => a * 31 + x + 1) s

/-- A concrete BSON element of 10 payload bytes. -/
def exElem (n : Nat) : BElem := ⟨n, 10⟩

/-- A concrete record store in which every record exists and has an
`_id` field. -/
def exCfg : Config := { murmur := exMurmur, recordStore := fun _ => some ⟨some (exElem 9)⟩ }

/-- A concrete catalog: one ready index and one not-ready index. -/
def exDescs : List IndexSpec := [⟨"a_1", ["a"], true⟩, ⟨"b_1", ["b"], false⟩]

/-- A concrete key string. -/
def exKS : KeyString := ⟨[1, 2, 3], [0]⟩

/-- A second concrete key string with a different buffer. -/
def exKS2 : KeyString := ⟨[4, 5], [0]⟩

/-- A freshly constructed checker over `exDescs`. -/
def exInit : IndexConsistency := initState exMurmur exDescs

/-- An `IndexInfo` with a single-field key pattern, for exercising the
rehydration step. -/
def exInfo : IndexInfo := mkIndexInfo exMurmur ⟨"a_1", ["a"], true⟩

/-- A `ValidateResults` with nothing reported yet. -/
def emptyResults : ValidateResults :=
  { valid := true, errors := [], warnings := [], missingIndexEntries := [],
    extraIndexEntries := [] }

/-- A BSON element sized so one diagnostic record's counted payload is
exactly the 1 MiB cap. -/
def exBigElem : BElem := ⟨0, 1048558⟩

/-- A diagnostic record whose counted payload is exactly the 1 MiB cap. -/
def exBigRec (n : Nat) : InfoRecord :=
  { indexName := "a_1", recordId := Int.ofNat n, idKey := none,
    indexKey := [("a", exBigElem)] }

/-- A phase-2 state with two cap-sized missing entries: reporting them
overflows the per-category cap at the second record. -/
def exBig : IndexConsistency :=
  { indexKeyCount := fun _ => 1
    firstPhase := false
    missingIndexEntries := [([1], exBigRec 1), ([2], exBigRec 2)]
    extraIndexEntries := []
    indexesInfo := exDescs.map (mkIndexInfo exMurmur) }

/-- The `ValidateResults` component of a successful `addIndexEntryErrors`
call. -/
def reportOf (s : IndexConsistency) (vmap : String → Bool) (results : ValidateResults) :
    Option ValidateResults :=
  match addIndexEntryErrors s vmap results with
  | .ok out => some out.2
  | .error _ => none

/-- Every diagnostic record the report walks: the missing entries followed
by the flattened extra-entry sets. -/
def allDiagnosticRecords (s : IndexConsistency) : List InfoRecord :=
  s.missingIndexEntries.map Prod.snd ++ (s.extraIndexEntries.map Prod.snd).flatten

/-- A concrete diagnostic record as `addDocKey` builds it in phase 2. -/
def exRec : InfoRecord :=
  { indexName := "a_1", recordId := 7, idKey := some (exElem 9), indexKey := [("a", exElem 1)] }

/-- The freshly constructed checker right after its phase-2 transition. -/
def exPhase2 : IndexConsistency := { exInit with firstPhase := false }

/-- A concrete perfectly paired observation on the ready index. -/
def exPair : PairedObs := ⟨exKS, 0, 7, [exElem 1], 8, [exElem 1]⟩

/-- A concrete phase-2 state whose missing-entries map holds `exKS`'s key
buffer and whose every bucket is flagged. -/
def exStateMissing : IndexConsistency :=
  { indexKeyCount := fun _ => 1
    firstPhase := false
    missingIndexEntries := [(exKS.buffer, exRec)]
    extraIndexEntries := []
    indexesInfo := exDescs.map (mkIndexInfo exMurmur) }

end Mongo

namespace Mongo

theorem getElem?_set_self_of (l : List α) (i : Nat) (a : α) (h : i < l.length) :
    (l.set i a)[i]? = some a := by
  rw [List.getElem?_set_self h]

theorem getElem?_set_ne_of (l : List α) (i j : Nat) (a : α) (h : i ≠ j) :
    (l.set i a)[j]? = l[j]? :=
  List.getElem?_set_ne h

theorem lt_length_of_getElem?_some {l : List α} {i : Nat} {a : α} (h : l[i]? = some a) :
    i < l.length := by
  obtain ⟨hlt, _⟩ := List.getElem?_eq_some.mp h
  exact hlt

theorem set_getElem?_same {l : List α} {i : Nat} {a : α} (h : l[i]? = some a) :
    l.set i a = l := by
  apply List.ext_getElem?
  intro j
  rcases eq_or_ne i j with rfl | hne
  · rw [getElem?_set_self_of _ _ _ (lt_length_of_getElem?_some h), h]
  · rw [getElem?_set_ne_of _ _ _ _ hne]

theorem anyNonzeroBelow_iff (f : Nat → Int) :
    ∀ n, anyNonzeroBelow f n = true ↔ ∃ b, b < n ∧ f b ≠ 0 := by
  intro n
  induction n with
  | zero => simp [anyNonzeroBelow]
  | succ n ih =>
    simp only [anyNonzeroBelow, Bool.or_eq_true, ih, decide_eq_true_eq]
    constructor
    · rintro (⟨b, hb, hfb⟩ | hfn)
      · exact ⟨b, Nat.lt_succ_of_lt hb, hfb⟩
      · exact ⟨n, Nat.lt_succ_self n, hfn⟩
    · rintro ⟨b, hb, hfb⟩
      rcases Nat.lt_succ_iff_lt_or_eq.mp hb with h | h
      · exact Or.inl ⟨b, h, hfb⟩
      · subst h
        exact Or.inr hfb

theorem anyNonzeroBelow_of_all_zero (f : Nat → Int) (hz : ∀ b, f b = 0) (n : Nat) :
    anyNonzeroBelow f n = false := by
  induction n with
  | zero => rfl
  | succ n ih => simp [anyNonzeroBelow, ih, hz]

/-- C3: `haveEntryMismatch` returns true exactly when at least one of the
`kNumHashBuckets = 65536` bucket counters is nonzero.  The operation is a
pure function of the state (the C++ method is `const`), so it modifies
nothing by construction. -/
theorem claim3_haveEntryMismatch_iff (s : IndexConsistency) :
    kNumHashBuckets = 65536 ∧
    (haveEntryMismatch s = true ↔ ∃ b, b < kNumHashBuckets ∧ s.indexKeyCount b ≠ 0) :=
  ⟨rfl, anyNonzeroBelow_iff s.indexKeyCount kNumHashBuckets⟩

theorem rehydrate_ok :
    ∀ (ks : List String) (vs : List BElem), ks.length ≤ vs.length →
      rehydrate ks vs = .ok (ks.zip vs) := by
  intro ks
  induction ks with
  | nil => intro vs _; rfl
  | cons k ks ih =>
    intro vs h
    cases vs with
    | nil => simp at h
    | cons v vs =>
      have h2 : ks.length ≤ vs.length := by simpa using h
      simp [rehydrate, ih vs h2]

theorem rehydrate_err :
    ∀ (ks : List String) (vs : List BElem), vs.length < ks.length →
      rehydrate ks vs = .error .rehydrateMismatch := by
  intro ks
  induction ks with
  | nil => intro vs h; simp at h
  | cons k ks ih =>
    intro vs h
    cases vs with
    | nil => rfl
    | cons v vs =>
      have h2 : vs.length < ks.length := by simpa using h
      simp [rehydrate, ih vs h2]

/-- C9 (amended): `_generateInfo` zips the declared field names with the
positional key values in declaration order; it is a fatal error exactly
when there are fewer key values than declared field names, while surplus
key values beyond the declared fields are silently ignored. -/
theorem claim9_generateInfo_rehydration (info : IndexInfo) (rid : Int)
    (ikey : List BElem) (idk : Option BElem) :
    (ikey.length < info.keyPattern.length →
      generateInfo info rid ikey idk = .error .rehydrateMismatch) ∧
    (info.keyPattern.length ≤ ikey.length →
      generateInfo info rid ikey idk =
        .ok { indexName := info.indexName, recordId := rid, idKey := idk,
              indexKey := info.keyPattern.zip ikey }) := by
  constructor
  · intro h
    unfold generateInfo
    rw [rehydrate_err _ _ h]
  · intro h
    unfold generateInfo
    rw [rehydrate_ok _ _ h]

/-- C9 witness: both arms of the amended claim at concrete inputs — no
key values for a one-field pattern is fatal, and two key values for a
one-field pattern zip to the single declared field. -/
theorem claim9_generateInfo_rehydration_witness :
    generateInfo exInfo 5 [] none = .error .rehydrateMismatch ∧
    generateInfo exInfo 5 [exElem 1, exElem 2] none =
      .ok { indexName := exInfo.indexName, recordId := 5, idKey := none,
            indexKey := exInfo.keyPattern.zip [exElem 1, exElem 2] } :=
  ⟨(claim9_generateInfo_rehydration exInfo 5 [] none).1 (by decide),
   (claim9_generateInfo_rehydration exInfo 5 [exElem 1, exElem 2] none).2 (by decide)⟩

/-- C9 counterexample: the claim as stated says any mismatch of the two
lengths is fatal, but with one declared field and two key values (lengths
1 and 2) `_generateInfo` succeeds and silently drops the surplus value. -/
theorem claim9_counterexample :
    exInfo.keyPattern.length = 1 ∧ ([exElem 1, exElem 2] : List BElem).length = 2 ∧
    generateInfo exInfo 5 [exElem 1, exElem 2] none =
      .ok { indexName := "a_1", recordId := 5, idKey := none,
            indexKey := [("a", exElem 1)] } :=
  ⟨rfl, rfl, rfl⟩

/-- C4: during phase 1 an observation on a non-ready index changes
nothing; on a ready index `addDocKey` increments exactly the bucket at
`hash(keyBuffer, typeInfo, indexNameHash)` and that index's `numRecords`,
`addIndexKey` decrements the same bucket and increments `numKeys`, and
neither call touches any other bucket, any other index, any other counter
of this index, either entry map, or the phase flag. -/
theorem claim4_phase1_effects (cfg : Config) (s : IndexConsistency) (ks : KeyString)
    (i : Nat) (rid rid2 : Int) (ikey ikey2 : List BElem) (info : IndexInfo)
    (hinfo : s.indexesInfo[i]? = some info) (hphase : s.firstPhase = true) :
    (info.isReady = false →
      addDocKey cfg s ks i rid ikey = .ok s ∧ addIndexKey cfg s ks i rid2 ikey2 = .ok s) ∧
    (info.isReady = true →
      (∃ s1, addDocKey cfg s ks i rid ikey = .ok s1 ∧
        s1.indexKeyCount (hashKeyString cfg.murmur ks info.indexNameHash) =
          s.indexKeyCount (hashKeyString cfg.murmur ks info.indexNameHash) + 1 ∧
        (∀ b, b ≠ hashKeyString cfg.murmur ks info.indexNameHash →
          s1.indexKeyCount b = s.indexKeyCount b) ∧
        s1.indexesInfo[i]? = some { info with numRecords := info.numRecords + 1 } ∧
        (∀ j, j ≠ i → s1.indexesInfo[j]? = s.indexesInfo[j]?) ∧
        s1.missingIndexEntries = s.missingIndexEntries ∧
        s1.extraIndexEntries = s.extraIndexEntries ∧
        s1.firstPhase = true) ∧
      (∃ s2, addIndexKey cfg s ks i rid2 ikey2 = .ok s2 ∧
        s2.indexKeyCount (hashKeyString cfg.murmur ks info.indexNameHash) =
          s.indexKeyCount (hashKeyString cfg.murmur ks info.indexNameHash) - 1 ∧
        (∀ b, b ≠ hashKeyString cfg.murmur ks info.indexNameHash →
          s2.indexKeyCount b = s.indexKeyCount b) ∧
        s2.indexesInfo[i]? = some { info with numKeys := info.numKeys + 1 } ∧
        (∀ j, j ≠ i → s2.indexesInfo[j]? = s.indexesInfo[j]?) ∧
        s2.missingIndexEntries = s.missingIndexEntries ∧
        s2.extraIndexEntries = s.extraIndexEntries ∧
        s2.firstPhase = true)) := by
  have hlen : i < s.indexesInfo.length := lt_length_of_getElem?_some hinfo
  constructor
  · intro hready
    constructor
    · simp [addDocKey, hinfo, hready]
    · simp [addIndexKey, hinfo, hready]
  · intro hready
    constructor
    · refine ⟨{ s with
          indexKeyCount := fun b =>
            if b = hashKeyString cfg.murmur ks info.indexNameHash then s.indexKeyCount b + 1
            else s.indexKeyCount b
          indexesInfo := s.indexesInfo.set i
            { info with numRecords := info.numRecords + 1 } }, ?_, ?_, ?_, ?_, ?_, rfl, rfl,
        hphase⟩
      · simp [addDocKey, hinfo, hready, hphase]
      · simp
      · intro b hb
        simp [hb]
      · exact getElem?_set_self_of _ _ _ hlen
      · intro j hj
        exact getElem?_set_ne_of _ _ _ _ (Ne.symm hj)
    · refine ⟨{ s with
          indexKeyCount := fun b =>
            if b = hashKeyString cfg.murmur ks info.indexNameHash then s.indexKeyCount b - 1
            else s.indexKeyCount b
          indexesInfo := s.indexesInfo.set i
            { info with numKeys := info.numKeys + 1 } }, ?_, ?_, ?_, ?_, ?_, rfl, rfl,
        hphase⟩
      · simp [addIndexKey, hinfo, hready, hphase]
      · simp
      · intro b hb
        simp [hb]
      · exact getElem?_set_self_of _ _ _ hlen
      · intro j hj
        exact getElem?_set_ne_of _ _ _ _ (Ne.symm hj)

theorem lookupVal_none_of_not_contains {m : List (Buf × α)} {k : Buf}
    (h : mapContainsKey m k = false) : lookupVal m k = none := by
  induction m with
  | nil => rfl
  | cons p rest ih =>
    simp only [mapContainsKey, List.any_cons, Bool.or_eq_false_iff, decide_eq_false_iff_not]
      at h
    simp only [lookupVal, if_neg h.1]
    exact ih h.2

theorem mapContainsKey_eraseKey (m : List (Buf × α)) (k : Buf) :
    mapContainsKey (eraseKey m k) k = false := by
  induction m with
  | nil => rfl
  | cons p rest ih =>
    by_cases hp : p.1 = k
    · simp only [eraseKey] at ih ⊢
      rw [List.filter_cons_of_neg (by simp [hp])]
      exact ih
    · simp only [eraseKey] at ih ⊢
      rw [List.filter_cons_of_pos (by simp [hp])]
      simp only [mapContainsKey, List.any_cons, Bool.or_eq_false_iff]
      exact ⟨by simp [hp], ih⟩

theorem lookupVal_eraseKey_ne {m : List (Buf × α)} {k k' : Buf} (h : k' ≠ k) :
    lookupVal (eraseKey m k) k' = lookupVal m k' := by
  induction m with
  | nil => rfl
  | cons p rest ih =>
    unfold eraseKey at *
    by_cases hp : p.1 = k
    · have hp' : ¬p.1 = k' := by rw [hp]; exact h.symm
      rw [List.filter_cons_of_neg (by simp [hp])]
      rw [ih]
      simp [lookupVal, hp']
    · rw [List.filter_cons_of_pos (by simp [hp])]
      by_cases hp' : p.1 = k'
      · simp [lookupVal, hp']
      · simp only [lookupVal, if_neg hp']
        exact ih

theorem lookupVal_isSome_of_contains {m : List (Buf × α)} {k : Buf}
    (h : mapContainsKey m k = true) : ∃ v, lookupVal m k = some v := by
  induction m with
  | nil => simp [mapContainsKey] at h
  | cons p rest ih =>
    by_cases hp : p.1 = k
    · exact ⟨p.2, by simp [lookupVal, hp]⟩
    · have h2 : mapContainsKey rest k = true := by
        simpa [mapContainsKey, hp] using h
      obtain ⟨v, hv⟩ := ih h2
      exact ⟨v, by simp [lookupVal, hp, hv]⟩

theorem lookupVal_append (m m' : List (Buf × α)) (k : Buf) :
    lookupVal (m ++ m') k =
      (match lookupVal m k with
       | some v => some v
       | none => lookupVal m' k) := by
  induction m with
  | nil => rfl
  | cons p rest ih =>
    by_cases hp : p.1 = k
    · simp [lookupVal, hp]
    · simpa [lookupVal, hp] using ih

theorem lookupVal_mapUpdate_self (m : List (Buf × List InfoRecord)) (k : Buf) (r : InfoRecord) :
    lookupVal (m.map fun p => if p.1 = k then (p.1, setInsertRec p.2 r) else p) k =
      (lookupVal m k).map (fun l => setInsertRec l r) := by
  induction m with
  | nil => rfl
  | cons p rest ih =>
    rw [List.map_cons]
    by_cases hp : p.1 = k
    · simp [lookupVal, hp]
    · rw [if_neg hp]
      simp only [lookupVal, if_neg hp]
      exact ih

theorem lookupVal_mapUpdate_ne (m : List (Buf × List InfoRecord)) (k k' : Buf) (r : InfoRecord)
    (h : k' ≠ k) :
    lookupVal (m.map fun p => if p.1 = k then (p.1, setInsertRec p.2 r) else p) k' =
      lookupVal m k' := by
  induction m with
  | nil => rfl
  | cons p rest ih =>
    rw [List.map_cons]
    by_cases hp : p.1 = k
    · have hp' : ¬p.1 = k' := by rw [hp]; exact h.symm
      rw [if_pos hp]
      simp only [lookupVal, if_neg hp', hp]
      have hkk : ¬k = k' := h.symm
      simp only [if_neg hkk]
      exact ih
    · rw [if_neg hp]
      by_cases hp' : p.1 = k'
      · simp [lookupVal, hp']
      · simp only [lookupVal, if_neg hp']
        exact ih

theorem lookupVal_extraInsert_self (m : List (Buf × List InfoRecord)) (k : Buf)
    (r : InfoRecord) :
    lookupVal (extraInsert m k r) k =
      some (match lookupVal m k with
            | none => [r]
            | some l => setInsertRec l r) := by
  unfold extraInsert
  by_cases hc : mapContainsKey m k
  · rw [if_pos hc, lookupVal_mapUpdate_self]
    obtain ⟨v, hv⟩ := lookupVal_isSome_of_contains hc
    simp [hv]
  · rw [if_neg hc, lookupVal_append, lookupVal_none_of_not_contains (by simpa using hc)]
    simp [lookupVal]

theorem lookupVal_extraInsert_ne (m : List (Buf × List InfoRecord)) (k k' : Buf)
    (r : InfoRecord) (h : k' ≠ k) :
    lookupVal (extraInsert m k r) k' = lookupVal m k' := by
  unfold extraInsert
  by_cases hc : mapContainsKey m k
  · rw [if_pos hc, lookupVal_mapUpdate_ne _ _ _ _ h]
  · rw [if_neg hc, lookupVal_append]
    rcases hv : lookupVal m k' with _ | v
    · simp [lookupVal, hv, h.symm]
    · simp [hv]

/-- C2: in phase 2, `addIndexKey` on a ready index whose key lands in a
flagged bucket either reconciles — the exact key buffer is a key of the
missing-entries map, whose binding is removed while the extra-entries map
is untouched — or records an extra entry: the diagnostic record is merged
into the set stored under that key buffer (a fresh singleton when the key
is new) while the missing-entries map is untouched. -/
theorem claim2_phase2_addIndexKey (cfg : Config) (s : IndexConsistency) (ks : KeyString)
    (i : Nat) (rid : Int) (ikey : List BElem) (info : IndexInfo) (rec : InfoRecord)
    (hinfo : s.indexesInfo[i]? = some info) (hready : info.isReady = true)
    (hphase : s.firstPhase = false)
    (hbucket : s.indexKeyCount (hashKeyString cfg.murmur ks info.indexNameHash) ≠ 0)
    (hgen : generateInfo info rid ikey none = .ok rec) :
    (mapContainsKey s.missingIndexEntries ks.buffer = true →
      ∃ s1, addIndexKey cfg s ks i rid ikey = .ok s1 ∧
        mapContainsKey s1.missingIndexEntries ks.buffer = false ∧
        (∀ k, k ≠ ks.buffer →
          lookupVal s1.missingIndexEntries k = lookupVal s.missingIndexEntries k) ∧
        s1.extraIndexEntries = s.extraIndexEntries ∧
        s1.indexKeyCount = s.indexKeyCount ∧ s1.indexesInfo = s.indexesInfo ∧
        s1.firstPhase = false) ∧
    (mapContainsKey s.missingIndexEntries ks.buffer = false →
      ∃ s1, addIndexKey cfg s ks i rid ikey = .ok s1 ∧
        s1.missingIndexEntries = s.missingIndexEntries ∧
        lookupVal s1.extraIndexEntries ks.buffer =
          some (match lookupVal s.extraIndexEntries ks.buffer with
                | none => [rec]
                | some l => setInsertRec l rec) ∧
        (∀ k, k ≠ ks.buffer →
          lookupVal s1.extraIndexEntries k = lookupVal s.extraIndexEntries k) ∧
        s1.indexKeyCount = s.indexKeyCount ∧ s1.indexesInfo = s.indexesInfo ∧
        s1.firstPhase = false) := by
  constructor
  · intro hcont
    refine ⟨{ s with missingIndexEntries := eraseKey s.missingIndexEntries ks.buffer },
      ?_, ?_, ?_, rfl, rfl, rfl, hphase⟩
    · simp [addIndexKey, hinfo, hready, hphase, hbucket, hgen, hcont]
    · exact mapContainsKey_eraseKey _ _
    · intro k hk
      exact lookupVal_eraseKey_ne hk
  · intro hcont
    refine ⟨{ s with
        extraIndexEntries := extraInsert s.extraIndexEntries ks.buffer rec },
      ?_, rfl, ?_, ?_, rfl, rfl, hphase⟩
    · simp [addIndexKey, hinfo, hready, hphase, hbucket, hgen, hcont]
    · exact lookupVal_extraInsert_self _ _ _
    · intro k hk
      exact lookupVal_extraInsert_ne _ _ _ _ hk

/-- C2 witness: the reconciliation arm at a concrete phase-2 state whose
missing-entries map holds exactly `exKS`'s key buffer. -/
theorem claim2_phase2_addIndexKey_witness :
    ∃ s1, addIndexKey exCfg exStateMissing exKS 0 7 [exElem 1] = .ok s1 ∧
      mapContainsKey s1.missingIndexEntries exKS.buffer = false ∧
      (∀ k, k ≠ exKS.buffer →
        lookupVal s1.missingIndexEntries k = lookupVal exStateMissing.missingIndexEntries k) ∧
      s1.extraIndexEntries = exStateMissing.extraIndexEntries ∧
      s1.indexKeyCount = exStateMissing.indexKeyCount ∧
      s1.indexesInfo = exStateMissing.indexesInfo ∧
      s1.firstPhase = false :=
  (claim2_phase2_addIndexKey exCfg exStateMissing exKS 0 7 [exElem 1] exInfo
    { indexName := "a_1", recordId := 7, idKey := none, indexKey := [("a", exElem 1)] }
    rfl rfl rfl (by decide) rfl).1 (by decide)

/-- C4 witness: the theorem applied to the freshly constructed checker
over `exDescs`, at the ready index 0. -/
theorem claim4_phase1_effects_witness :
    ∃ s1, addDocKey exCfg exInit exKS 0 7 [exElem 1] = .ok s1 ∧
      s1.indexKeyCount (hashKeyString exCfg.murmur exKS exInfo.indexNameHash) =
        exInit.indexKeyCount (hashKeyString exCfg.murmur exKS exInfo.indexNameHash) + 1 ∧
      (∀ b, b ≠ hashKeyString exCfg.murmur exKS exInfo.indexNameHash →
        s1.indexKeyCount b = exInit.indexKeyCount b) ∧
      s1.indexesInfo[0]? = some { exInfo with numRecords := exInfo.numRecords + 1 } ∧
      (∀ j, j ≠ 0 → s1.indexesInfo[j]? = exInit.indexesInfo[j]?) ∧
      s1.missingIndexEntries = exInit.missingIndexEntries ∧
      s1.extraIndexEntries = exInit.extraIndexEntries ∧
      s1.firstPhase = true :=
  (((claim4_phase1_effects exCfg exInit exKS 0 7 8 [exElem 1] [exElem 1] exInfo
    rfl rfl).2) (by decide)).1

theorem rehydrate_error_eq :
    ∀ (ks : List String) (vs : List BElem) (f : Fatal),
      rehydrate ks vs = .error f → f = .rehydrateMismatch := by
  intro ks
  induction ks with
  | nil => intro vs f h; simp [rehydrate] at h
  | cons k ks ih =>
    intro vs f h
    cases vs with
    | nil =>
      simp only [rehydrate, Except.error.injEq] at h
      exact h.symm
    | cons v vs =>
      simp only [rehydrate] at h
      rcases hr : rehydrate ks vs with f' | rest
      · rw [hr] at h
        simp only [Except.error.injEq] at h
        rw [← h]
        exact ih vs f' hr
      · rw [hr] at h
        simp at h

theorem generateInfo_error_eq {info : IndexInfo} {rid : Int} {ikey : List BElem}
    {idk : Option BElem} {f : Fatal} (h : generateInfo info rid ikey idk = .error f) :
    f = .rehydrateMismatch := by
  unfold generateInfo at h
  rcases hr : rehydrate info.keyPattern ikey with f' | rest
  · rw [hr] at h
    simp only [Except.error.injEq] at h
    rw [← h]
    exact rehydrate_error_eq _ _ _ hr
  · rw [hr] at h
    simp at h

theorem mapContainsKey_append_single (m : List (Buf × α)) (kb k : Buf) (v : α) :
    mapContainsKey (m ++ [(kb, v)]) k = (mapContainsKey m k || decide (kb = k)) := by
  simp [mapContainsKey, List.any_append]

theorem mapContainsKey_of_eraseKey {m : List (Buf × α)} {k0 k : Buf}
    (h : mapContainsKey (eraseKey m k0) k = true) : mapContainsKey m k = true := by
  obtain ⟨p, hp, hpk⟩ := List.any_eq_true.mp h
  exact List.any_eq_true.mpr ⟨p, List.mem_of_mem_filter hp, hpk⟩

theorem addDocKey_phase2_cases (cfg : Config) (s : IndexConsistency) (ks : KeyString)
    (i : Nat) (rid : Int) (ikey : List BElem) (hphase : s.firstPhase = false) :
    addDocKey cfg s ks i rid ikey = .error .invalidHandle ∨
    addDocKey cfg s ks i rid ikey = .ok s ∨
    addDocKey cfg s ks i rid ikey = .error .recordNotFound ∨
    addDocKey cfg s ks i rid ikey = .error .rehydrateMismatch ∨
    (mapContainsKey s.missingIndexEntries ks.buffer = true ∧
      addDocKey cfg s ks i rid ikey = .error .duplicateMissingKey) ∨
    (∃ rec, mapContainsKey s.missingIndexEntries ks.buffer = false ∧
      addDocKey cfg s ks i rid ikey =
        .ok { s with missingIndexEntries := s.missingIndexEntries ++ [(ks.buffer, rec)] }) := by
  unfold addDocKey
  rcases hI : s.indexesInfo[i]? with _ | info
  · exact Or.inl rfl
  · simp only []
    by_cases hready : info.isReady
    · simp only [hready, Bool.not_true, Bool.false_eq_true, if_false, hphase]
      by_cases hcnt :
          s.indexKeyCount (hashKeyString cfg.murmur ks info.indexNameHash) ≠ 0
      · rw [if_pos hcnt]
        rcases hrs : cfg.recordStore rid with _ | record
        · exact Or.inr (Or.inr (Or.inl rfl))
        · simp only []
          rcases hgen : generateInfo info rid ikey record.idKey with f | rec
          · have hf := generateInfo_error_eq hgen
            subst hf
            exact Or.inr (Or.inr (Or.inr (Or.inl rfl)))
          · simp only []
            by_cases hcont : mapContainsKey s.missingIndexEntries ks.buffer
            · rw [if_pos hcont]
              exact Or.inr (Or.inr (Or.inr (Or.inr (Or.inl ⟨hcont, rfl⟩))))
            · rw [if_neg hcont]
              exact Or.inr (Or.inr (Or.inr (Or.inr (Or.inr
                ⟨rec, Bool.not_eq_true _ ▸ eq_false_of_ne_true hcont, rfl⟩))))
      · rw [if_neg hcnt]
        exact Or.inr (Or.inl rfl)
    · simp only [hready]
      exact Or.inr (Or.inl rfl)

theorem addIndexKey_phase2_cases (cfg : Config) (s : IndexConsistency) (ks : KeyString)
    (i : Nat) (rid : Int) (ikey : List BElem) (hphase : s.firstPhase = false) :
    addIndexKey cfg s ks i rid ikey = .error .invalidHandle ∨
    addIndexKey cfg s ks i rid ikey = .ok s ∨
    addIndexKey cfg s ks i rid ikey = .error .rehydrateMismatch ∨
    (∃ rec, addIndexKey cfg s ks i rid ikey =
      .ok { s with extraIndexEntries := extraInsert s.extraIndexEntries ks.buffer rec }) ∨
    addIndexKey cfg s ks i rid ikey =
      .ok { s with missingIndexEntries := eraseKey s.missingIndexEntries ks.buffer } := by
  unfold addIndexKey
  rcases hI : s.indexesInfo[i]? with _ | info
  · exact Or.inl rfl
  · simp only []
    by_cases hready : info.isReady
    · simp only [hready, Bool.not_true, Bool.false_eq_true, if_false, hphase]
      by_cases hcnt :
          s.indexKeyCount (hashKeyString cfg.murmur ks info.indexNameHash) ≠ 0
      · rw [if_pos hcnt]
        rcases hgen : generateInfo info rid ikey none with f | rec
        · have hf := generateInfo_error_eq hgen
          subst hf
          exact Or.inr (Or.inr (Or.inl rfl))
        · simp only []
          by_cases hcont : mapContainsKey s.missingIndexEntries ks.buffer = false
          · rw [if_pos hcont]
            exact Or.inr (Or.inr (Or.inr (Or.inl ⟨rec, rfl⟩)))
          · rw [if_neg hcont]
            exact Or.inr (Or.inr (Or.inr (Or.inr rfl)))
      · rw [if_neg hcnt]
        exact Or.inr (Or.inl rfl)
    · simp only [hready]
      exact Or.inr (Or.inl rfl)

theorem stepEvent_phase2_ok (cfg : Config) (s s' : IndexConsistency) (e : Event)
    (hphase : s.firstPhase = false) (hok : stepEvent cfg s e = .ok s') :
    s'.firstPhase = false ∧ s'.indexKeyCount = s.indexKeyCount ∧
    s'.indexesInfo = s.indexesInfo ∧
    (∀ k, mapContainsKey s'.missingIndexEntries k = true →
      mapContainsKey s.missingIndexEntries k = true ∨
        (isDocEvent e = true ∧ k = (evKS e).buffer)) := by
  cases e with
  | docKey ks i rid ikey =>
    simp only [stepEvent] at hok
    rcases addDocKey_phase2_cases cfg s ks i rid ikey hphase with
      h | h | h | h | ⟨hc, h⟩ | ⟨rec, hc, h⟩ <;> rw [h] at hok
    · exact absurd hok (by simp)
    · injection hok with hok
      subst hok
      exact ⟨hphase, rfl, rfl, fun k hk => Or.inl hk⟩
    · exact absurd hok (by simp)
    · exact absurd hok (by simp)
    · exact absurd hok (by simp)
    · injection hok with hok
      subst hok
      refine ⟨hphase, rfl, rfl, fun k hk => ?_⟩
      simp only [mapContainsKey_append_single, Bool.or_eq_true, decide_eq_true_eq] at hk
      rcases hk with hk | hk
      · exact Or.inl hk
      · exact Or.inr ⟨rfl, hk.symm⟩
  | indexKey ks i rid ikey =>
    simp only [stepEvent] at hok
    rcases addIndexKey_phase2_cases cfg s ks i rid ikey hphase with
      h | h | h | ⟨rec, h⟩ | h <;> rw [h] at hok
    · exact absurd hok (by simp)
    · injection hok with hok
      subst hok
      exact ⟨hphase, rfl, rfl, fun k hk => Or.inl hk⟩
    · exact absurd hok (by simp)
    · injection hok with hok
      subst hok
      exact ⟨hphase, rfl, rfl, fun k hk => Or.inl hk⟩
    · injection hok with hok
      subst hok
      exact ⟨hphase, rfl, rfl, fun k hk => Or.inl (mapContainsKey_of_eraseKey hk)⟩

theorem stepEvent_phase2_dup (cfg : Config) (s : IndexConsistency) (e : Event)
    (hphase : s.firstPhase = false)
    (hdup : stepEvent cfg s e = .error .duplicateMissingKey) :
    isDocEvent e = true ∧ mapContainsKey s.missingIndexEntries (evKS e).buffer = true := by
  cases e with
  | docKey ks i rid ikey =>
    simp only [stepEvent] at hdup
    rcases addDocKey_phase2_cases cfg s ks i rid ikey hphase with
      h | h | h | h | ⟨hc, h⟩ | ⟨rec, hc, h⟩ <;> rw [h] at hdup
    · exact absurd hdup (by simp)
    · exact absurd hdup (by simp)
    · exact absurd hdup (by simp)
    · exact absurd hdup (by simp)
    · exact ⟨rfl, hc⟩
    · exact absurd hdup (by simp)
  | indexKey ks i rid ikey =>
    simp only [stepEvent] at hdup
    rcases addIndexKey_phase2_cases cfg s ks i rid ikey hphase with
      h | h | h | ⟨rec, h⟩ | h <;> rw [h] at hdup <;> exact absurd hdup (by simp)

/-- C10: once the checker is in phase 2, no observation call modifies the
bucket counter table — after any successful phase-2 run every bucket
counter retains its end-of-phase-1 value (so the flagged-bucket set that
gates exact reconciliation is frozen), and the checker stays in phase 2. -/
theorem claim10_phase2_buckets_frozen (cfg : Config) :
    ∀ (evs : List Event) (s s' : IndexConsistency), s.firstPhase = false →
      runEvents cfg s evs = .ok s' →
      (∀ b, s'.indexKeyCount b = s.indexKeyCount b) ∧ s'.firstPhase = false := by
  intro evs
  induction evs with
  | nil =>
    intro s s' hphase hrun
    simp only [runEvents] at hrun
    injection hrun with hrun
    subst hrun
    exact ⟨fun b => rfl, hphase⟩
  | cons e evs ih =>
    intro s s' hphase hrun
    simp only [runEvents] at hrun
    rcases hstep : stepEvent cfg s e with f | s1
    · rw [hstep] at hrun
      simp only [] at hrun
      exact absurd hrun (by simp)
    · rw [hstep] at hrun
      simp only [] at hrun
      obtain ⟨h1, h2, _, _⟩ := stepEvent_phase2_ok cfg s s1 e hphase hstep
      obtain ⟨ih1, ih2⟩ := ih s1 s' h1 hrun
      refine ⟨fun b => ?_, ih2⟩
      rw [ih1 b, h2]

/-- C10 witness: the theorem at a concrete phase-2 reconciliation step
(which erases the one missing entry but leaves every bucket counter at 1). -/
theorem claim10_phase2_buckets_frozen_witness :
    (∀ b, ({ exStateMissing with
        missingIndexEntries := ([] : List (Buf × InfoRecord)) } :
          IndexConsistency).indexKeyCount b = exStateMissing.indexKeyCount b) ∧
    ({ exStateMissing with
        missingIndexEntries := ([] : List (Buf × InfoRecord)) } :
          IndexConsistency).firstPhase = false :=
  claim10_phase2_buckets_frozen exCfg [Event.indexKey exKS 0 7 [exElem 1]]
    exStateMissing _ rfl rfl

/-- C8 (amended): the phase transition is one-directional — from phase 1
`setSecondPhase` moves to phase 2, and invoking it again in phase 2 is the
fatal `invariant(_firstPhase)`; observation calls after the transition are
not fatal and are not counting operations either: they are dispatched to
phase-2 reconciliation and never modify a bucket counter or the phase
flag. -/
theorem claim8_transition_one_directional (cfg : Config) (s : IndexConsistency)
    (hphase : s.firstPhase = false) :
    setSecondPhase s = .error .notFirstPhase ∧
    (∀ s0 : IndexConsistency, s0.firstPhase = true →
      setSecondPhase s0 = .ok { s0 with firstPhase := false }) ∧
    (∀ e s', stepEvent cfg s e = .ok s' →
      s'.firstPhase = false ∧ ∀ b, s'.indexKeyCount b = s.indexKeyCount b) := by
  refine ⟨?_, ?_, ?_⟩
  · simp [setSecondPhase, hphase]
  · intro s0 h0
    simp [setSecondPhase, h0]
  · intro e s' hok
    obtain ⟨h1, h2, _, _⟩ := stepEvent_phase2_ok cfg s s' e hphase hok
    exact ⟨h1, fun b => by rw [h2]⟩

/-- C8 witness: the amended theorem at the concrete post-transition
state. -/
theorem claim8_transition_one_directional_witness :
    setSecondPhase exPhase2 = .error .notFirstPhase ∧
    (∀ s0 : IndexConsistency, s0.firstPhase = true →
      setSecondPhase s0 = .ok { s0 with firstPhase := false }) ∧
    (∀ e s', stepEvent exCfg exPhase2 e = .ok s' →
      s'.firstPhase = false ∧ ∀ b, s'.indexKeyCount b = exPhase2.indexKeyCount b) :=
  claim8_transition_one_directional exCfg exPhase2 rfl

/-- C8 counterexample: an observation call made right after the phase-2
transition is accepted, not fatal — `addDocKey` on the ready index returns
successfully (its key's bucket is unflagged, so the state is unchanged),
refuting the claim that observing after the transition is a fatal
misuse. -/
theorem claim8_counterexample :
    setSecondPhase exInit = .ok exPhase2 ∧
    addDocKey exCfg exPhase2 exKS 0 7 [exElem 1] = .ok exPhase2 :=
  ⟨rfl, rfl⟩

theorem runEvents_no_dup (cfg : Config) :
    ∀ (evs : List Event) (s : IndexConsistency), s.firstPhase = false →
      (docBuffers evs).Nodup →
      (∀ k, mapContainsKey s.missingIndexEntries k = true → k ∉ docBuffers evs) →
      runEvents cfg s evs ≠ .error .duplicateMissingKey := by
  intro evs
  induction evs with
  | nil =>
    intro s _ _ _ h
    simp [runEvents] at h
  | cons e evs ih =>
    intro s hphase hnodup hinv hrun
    simp only [runEvents] at hrun
    rcases hstep : stepEvent cfg s e with f | s1
    · rw [hstep] at hrun
      simp only [] at hrun
      have hf : f = .duplicateMissingKey := by injection hrun
      subst hf
      obtain ⟨hdoc, hcont⟩ := stepEvent_phase2_dup cfg s e hphase hstep
      have hmem : (evKS e).buffer ∈ docBuffers (e :: evs) := by
        cases e with
        | docKey ks i rid ikey => simp [docBuffers, evKS]
        | indexKey ks i rid ikey => simp [isDocEvent] at hdoc
      exact hinv _ hcont hmem
    · rw [hstep] at hrun
      simp only [] at hrun
      obtain ⟨h1, _, _, hmiss⟩ := stepEvent_phase2_ok cfg s s1 e hphase hstep
      refine ih s1 h1 ?_ ?_ hrun
      · cases e with
        | docKey ks i rid ikey =>
          have hdb : docBuffers (Event.docKey ks i rid ikey :: evs) =
              ks.buffer :: docBuffers evs := by simp [docBuffers]
          rw [hdb] at hnodup
          exact hnodup.of_cons
        | indexKey ks i rid ikey =>
          simpa [docBuffers] using hnodup
      · intro k hk
        rcases hmiss k hk with hk2 | ⟨hdoc, hkb⟩
        · have hnot := hinv k hk2
          cases e with
          | docKey ks i rid ikey =>
            intro hmem
            apply hnot
            have hdb : docBuffers (Event.docKey ks i rid ikey :: evs) =
                ks.buffer :: docBuffers evs := by simp [docBuffers]
            rw [hdb]
            exact List.mem_cons_of_mem _ hmem
          | indexKey ks i rid ikey =>
            intro hmem
            apply hnot
            simpa [docBuffers] using hmem
        · subst hkb
          cases e with
          | docKey ks i rid ikey =>
            have hdb : docBuffers (Event.docKey ks i rid ikey :: evs) =
                ks.buffer :: docBuffers evs := by simp [docBuffers]
            rw [hdb] at hnodup
            simpa [evKS] using (List.nodup_cons.mp hnodup).1
          | indexKey ks i rid ikey =>
            simp [isDocEvent] at hdoc

/-- C7: in a phase-2 run that starts with an empty missing-entries map
and never feeds the same canonical key buffer to `addDocKey` twice (each
document scanned at most once), the duplicate-insertion invariant on the
missing-entries map can never be the cause of an abort. -/
theorem claim7_no_duplicate_invariant (cfg : Config) (s : IndexConsistency)
    (evs : List Event) (hphase : s.firstPhase = false)
    (hmiss : s.missingIndexEntries = []) (hnodup : (docBuffers evs).Nodup) :
    runEvents cfg s evs ≠ .error .duplicateMissingKey := by
  apply runEvents_no_dup cfg evs s hphase hnodup
  intro k hk
  rw [hmiss] at hk
  simp [mapContainsKey] at hk

/-- C7 witness: a concrete phase-2 scan of two distinct document keys over
the ready index never aborts with the duplicate-key invariant. -/
theorem claim7_no_duplicate_invariant_witness :
    runEvents exCfg exPhase2
      [Event.docKey exKS 0 7 [exElem 1], Event.docKey exKS2 0 8 [exElem 2]] ≠
      .error .duplicateMissingKey :=
  claim7_no_duplicate_invariant exCfg exPhase2
    [Event.docKey exKS 0 7 [exElem 1], Event.docKey exKS2 0 8 [exElem 2]]
    rfl rfl (by decide)

theorem stepEvent_phase1 (cfg : Config) (s : IndexConsistency) (e : Event)
    (hphase : s.firstPhase = true) (hrange : evIdx e < s.indexesInfo.length) :
    ∃ s1, stepEvent cfg s e = .ok s1 ∧ s1.firstPhase = true ∧
      s1.missingIndexEntries = s.missingIndexEntries ∧
      s1.extraIndexEntries = s.extraIndexEntries ∧
      s1.indexesInfo.map staticInfo = s.indexesInfo.map staticInfo ∧
      ∀ b, s1.indexKeyCount b = s.indexKeyCount b +
        evDelta cfg (s.indexesInfo.map staticInfo) e b := by
  cases e with
  | docKey ks i rid ikey =>
    simp only [evIdx] at hrange
    have hinfo : s.indexesInfo[i]? = some s.indexesInfo[i] := List.getElem?_eq_getElem hrange
    have hreg : Option.map staticInfo s.indexesInfo[i]? =
        some (staticInfo s.indexesInfo[i]) := by
      rw [hinfo]
      rfl
    by_cases hready : s.indexesInfo[i].isReady
    · refine ⟨{ s with
          indexKeyCount := fun b =>
            if b = hashKeyString cfg.murmur ks s.indexesInfo[i].indexNameHash then
              s.indexKeyCount b + 1
            else s.indexKeyCount b
          indexesInfo := s.indexesInfo.set i
            { s.indexesInfo[i] with numRecords := s.indexesInfo[i].numRecords + 1 } },
        ?_, hphase, rfl, rfl, ?_, ?_⟩
      · simp [stepEvent, addDocKey, hinfo, hready, hphase]
      · rw [List.map_set]
        exact set_getElem?_same (by rw [List.getElem?_map, hinfo]; rfl)
      · intro b
        simp only [evDelta, evBucket, evIdx, evKS, isDocEvent, List.getElem?_map, hreg,
          staticInfo, hready, if_true]
        by_cases hb : b = hashKeyString cfg.murmur ks s.indexesInfo[i].indexNameHash
        · simp [hb]
        · simp [hb, Ne.symm hb]
    · refine ⟨s, ?_, hphase, rfl, rfl, rfl, ?_⟩
      · simp [stepEvent, addDocKey, hinfo, hready]
      · intro b
        simp only [evDelta, evBucket, evIdx, evKS, isDocEvent, List.getElem?_map, hreg,
          staticInfo]
        simp [hready]
  | indexKey ks i rid ikey =>
    simp only [evIdx] at hrange
    have hinfo : s.indexesInfo[i]? = some s.indexesInfo[i] := List.getElem?_eq_getElem hrange
    have hreg : Option.map staticInfo s.indexesInfo[i]? =
        some (staticInfo s.indexesInfo[i]) := by
      rw [hinfo]
      rfl
    by_cases hready : s.indexesInfo[i].isReady
    · refine ⟨{ s with
          indexKeyCount := fun b =>
            if b = hashKeyString cfg.murmur ks s.indexesInfo[i].indexNameHash then
              s.indexKeyCount b - 1
            else s.indexKeyCount b
          indexesInfo := s.indexesInfo.set i
            { s.indexesInfo[i] with numKeys := s.indexesInfo[i].numKeys + 1 } },
        ?_, hphase, rfl, rfl, ?_, ?_⟩
      · simp [stepEvent, addIndexKey, hinfo, hready, hphase]
      · rw [List.map_set]
        exact set_getElem?_same (by rw [List.getElem?_map, hinfo]; rfl)
      · intro b
        simp only [evDelta, evBucket, evIdx, evKS, isDocEvent, List.getElem?_map, hreg,
          staticInfo, hready, if_true]
        by_cases hb : b = hashKeyString cfg.murmur ks s.indexesInfo[i].indexNameHash
        · simp [hb, sub_eq_add_neg]
        · simp [hb, Ne.symm hb]
    · refine ⟨s, ?_, hphase, rfl, rfl, rfl, ?_⟩
      · simp [stepEvent, addIndexKey, hinfo, hready]
      · intro b
        simp only [evDelta, evBucket, evIdx, evKS, isDocEvent, List.getElem?_map, hreg,
          staticInfo]
        simp [hready]

theorem runEvents_phase1 (cfg : Config) :
    ∀ (evs : List Event) (s : IndexConsistency), s.firstPhase = true →
      (∀ e ∈ evs, evIdx e < s.indexesInfo.length) →
      ∃ s', runEvents cfg s evs = .ok s' ∧ s'.firstPhase = true ∧
        s'.missingIndexEntries = s.missingIndexEntries ∧
        s'.extraIndexEntries = s.extraIndexEntries ∧
        s'.indexesInfo.map staticInfo = s.indexesInfo.map staticInfo ∧
        ∀ b, s'.indexKeyCount b = s.indexKeyCount b +
          phase1Delta cfg (s.indexesInfo.map staticInfo) evs b := by
  intro evs
  induction evs with
  | nil =>
    intro s hphase _
    exact ⟨s, rfl, hphase, rfl, rfl, rfl, fun b => by simp [phase1Delta]⟩
  | cons e evs ih =>
    intro s hphase hrange
    obtain ⟨s1, hstep, hph1, hm1, he1, hreg1, hcnt1⟩ :=
      stepEvent_phase1 cfg s e hphase (hrange e (List.mem_cons_self e evs))
    have hlen1 : s1.indexesInfo.length = s.indexesInfo.length := by
      have := congrArg List.length hreg1
      simpa using this
    obtain ⟨s', hrun, hph, hm, he, hreg, hcnt⟩ :=
      ih s1 hph1 (fun e2 he2 => hlen1 ▸ hrange e2 (List.mem_cons_of_mem e he2))
    refine ⟨s', ?_, hph, hm.trans hm1, he.trans he1, hreg.trans hreg1, fun b => ?_⟩
    · simp only [runEvents, hstep]
      exact hrun
    · rw [hcnt b, hreg1, hcnt1 b]
      simp only [phase1Delta, List.map_cons, List.sum_cons]
      ring

theorem pairedEvents_delta_zero (cfg : Config) (reg : List StaticInfo) :
    ∀ (ps : List PairedObs) (b : Nat), phase1Delta cfg reg (pairedEvents ps) b = 0 := by
  intro ps
  induction ps with
  | nil =>
    intro b
    simp [pairedEvents, phase1Delta]
  | cons p ps ih =>
    intro b
    have hperm : (pairedEvents (p :: ps)).Perm
        (docEvent p :: idxEvent p :: pairedEvents ps) := by
      unfold pairedEvents
      simp only [List.map_cons]
      exact List.Perm.cons _ List.perm_middle
    have hsum := (hperm.map fun e => evDelta cfg reg e b).sum_eq
    unfold phase1Delta at ih ⊢
    rw [hsum]
    simp only [List.map_cons, List.sum_cons]
    rw [ih b]
    have hcancel : evDelta cfg reg (docEvent p) b + evDelta cfg reg (idxEvent p) b = 0 := by
      simp only [evDelta, evBucket, docEvent, idxEvent, evIdx, evKS, isDocEvent]
      rcases reg[p.idx]? with _ | si
      · simp
      · by_cases hr : si.isReady
        · simp only [hr, if_true]
          by_cases hb : hashKeyString cfg.murmur p.ks si.indexNameHash = b
          · simp [hb]
          · simp [hb]
        · simp [hr]
    rw [← add_assoc, hcancel, zero_add]

theorem stepEvent_phase2_zero (cfg : Config) (s : IndexConsistency) (e : Event)
    (hphase : s.firstPhase = false) (hzero : ∀ b, s.indexKeyCount b = 0)
    (hrange : evIdx e < s.indexesInfo.length) :
    stepEvent cfg s e = .ok s := by
  cases e with
  | docKey ks i rid ikey =>
    simp only [evIdx] at hrange
    have hinfo : s.indexesInfo[i]? = some s.indexesInfo[i] := List.getElem?_eq_getElem hrange
    by_cases hready : s.indexesInfo[i].isReady
    · simp [stepEvent, addDocKey, hinfo, hready, hphase, hzero]
    · simp [stepEvent, addDocKey, hinfo, hready]
  | indexKey ks i rid ikey =>
    simp only [evIdx] at hrange
    have hinfo : s.indexesInfo[i]? = some s.indexesInfo[i] := List.getElem?_eq_getElem hrange
    by_cases hready : s.indexesInfo[i].isReady
    · simp [stepEvent, addIndexKey, hinfo, hready, hphase, hzero]
    · simp [stepEvent, addIndexKey, hinfo, hready]

theorem runEvents_phase2_identity (cfg : Config) :
    ∀ (evs : List Event) (s : IndexConsistency), s.firstPhase = false →
      (∀ b, s.indexKeyCount b = 0) →
      (∀ e ∈ evs, evIdx e < s.indexesInfo.length) →
      runEvents cfg s evs = .ok s := by
  intro evs
  induction evs with
  | nil =>
    intro s _ _ _
    rfl
  | cons e evs ih =>
    intro s hphase hzero hrange
    have hstep := stepEvent_phase2_zero cfg s e hphase hzero
      (hrange e (List.mem_cons_self e evs))
    simp only [runEvents, hstep]
    exact ih s hphase hzero (fun e2 he2 => hrange e2 (List.mem_cons_of_mem e he2))

/-- C1: over ready indexes, for every interleaving of a perfectly paired
stream (each document key observed exactly once, with exactly one
byte-identical index-key observation — same key buffer and type-bits
buffer — for the same index), phase 1 succeeds, `haveEntryMismatch` is
false afterwards, and running phase 2 anyway over the same stream succeeds
and leaves both the missing-entries and the extra-entries maps empty. -/
theorem claim1_paired_stream (cfg : Config) (descs : List IndexSpec)
    (ps : List PairedObs) (evs : List Event)
    (hperm : evs.Perm (pairedEvents ps))
    (hready : eventsReady descs (pairedEvents ps) = true)
    (_hnodup : (ps.map fun p => (p.ks, p.idx)).Nodup) :
    ∃ s1 s2 s3,
      runEvents cfg (initState cfg.murmur descs) evs = .ok s1 ∧
      haveEntryMismatch s1 = false ∧
      setSecondPhase s1 = .ok s2 ∧
      runEvents cfg s2 evs = .ok s3 ∧
      s3.missingIndexEntries = [] ∧ s3.extraIndexEntries = [] := by
  have hlen0 : (initState cfg.murmur descs).indexesInfo.length = descs.length := by
    simp [initState]
  have hrange : ∀ e ∈ evs, evIdx e < (initState cfg.murmur descs).indexesInfo.length := by
    intro e he
    have he2 : e ∈ pairedEvents ps := hperm.mem_iff.mp he
    have hall := List.all_eq_true.mp hready e he2
    rcases hd : descs[evIdx e]? with _ | d
    · rw [hd] at hall
      simp only [] at hall
      exact absurd hall (by simp)
    · rw [hlen0]
      exact lt_length_of_getElem?_some hd
  obtain ⟨s1, hrun1, hph1, hm1, he1, hreg1, hcnt1⟩ :=
    runEvents_phase1 cfg evs (initState cfg.murmur descs) rfl hrange
  have hzero : ∀ b, s1.indexKeyCount b = 0 := by
    intro b
    rw [hcnt1 b]
    have hdelta : phase1Delta cfg
        ((initState cfg.murmur descs).indexesInfo.map staticInfo) evs b = 0 := by
      unfold phase1Delta
      rw [(hperm.map fun e =>
        evDelta cfg ((initState cfg.murmur descs).indexesInfo.map staticInfo) e b).sum_eq]
      have hz := pairedEvents_delta_zero cfg
        ((initState cfg.murmur descs).indexesInfo.map staticInfo) ps b
      unfold phase1Delta at hz
      exact hz
    rw [hdelta]
    simp [initState]
  have hmm : haveEntryMismatch s1 = false := anyNonzeroBelow_of_all_zero _ hzero _
  have hstep2 : setSecondPhase s1 = .ok { s1 with firstPhase := false } := by
    simp [setSecondPhase, hph1]
  have hlen1 : s1.indexesInfo.length = (initState cfg.murmur descs).indexesInfo.length := by
    have hl := congrArg List.length hreg1
    simpa using hl
  have hrun2 : runEvents cfg { s1 with firstPhase := false } evs =
      .ok { s1 with firstPhase := false } := by
    apply runEvents_phase2_identity cfg evs { s1 with firstPhase := false } rfl
      (fun b => hzero b)
    intro e he
    show evIdx e < s1.indexesInfo.length
    rw [hlen1]
    exact hrange e he
  refine ⟨s1, { s1 with firstPhase := false }, { s1 with firstPhase := false },
    hrun1, hmm, hstep2, hrun2, ?_, ?_⟩
  · show s1.missingIndexEntries = []
    rw [hm1]
    rfl
  · show s1.extraIndexEntries = []
    rw [he1]
    rfl

/-- C1 witness: one perfectly paired observation on the ready index, in
the canonical interleaving. -/
theorem claim1_paired_stream_witness :
    ∃ s1 s2 s3,
      runEvents exCfg (initState exCfg.murmur exDescs) (pairedEvents [exPair]) = .ok s1 ∧
      haveEntryMismatch s1 = false ∧
      setSecondPhase s1 = .ok s2 ∧
      runEvents exCfg s2 (pairedEvents [exPair]) = .ok s3 ∧
      s3.missingIndexEntries = [] ∧ s3.extraIndexEntries = [] :=
  claim1_paired_stream exCfg exDescs [exPair] (pairedEvents [exPair])
    (List.Perm.refl _) (by decide) (by decide)

theorem markInvalid_missing (v : String → Bool) (res : ValidateResults) (n : String) :
    (markInvalid v res n).2.missingIndexEntries = res.missingIndexEntries := by
  unfold markInvalid
  split <;> rfl

theorem markInvalid_extra (v : String → Bool) (res : ValidateResults) (n : String) :
    (markInvalid v res n).2.extraIndexEntries = res.extraIndexEntries := by
  unfold markInvalid
  split <;> rfl

theorem markInvalid_warnings (v : String → Bool) (res : ValidateResults) (n : String) :
    (markInvalid v res n).2.warnings = res.warnings := by
  unfold markInvalid
  split <;> rfl

theorem markInvalid_valid (v : String → Bool) (res : ValidateResults) (n : String) :
    (markInvalid v res n).2.valid = res.valid := by
  unfold markInvalid
  split <;> rfl

theorem markInvalid_errors (v : String → Bool) (res : ValidateResults) (n : String) :
    (markInvalid v res n).2.errors =
      res.errors ++ (if v n = true then [Msg.indexInconsistent n] else []) := by
  unfold markInvalid
  by_cases hv : v n = false
  · simp [hv]
  · have hv' : v n = true := by revert hv; cases v n <;> simp
    simp [hv, hv']

theorem markInvalid_vmap (v : String → Bool) (res : ValidateResults) (n n' : String) :
    (markInvalid v res n).1 n' = if n' = n then false else v n' := by
  unfold markInvalid
  by_cases hv : v n = false
  · rw [if_pos hv]
    by_cases hn : n' = n
    · subst hn
      simp [hv]
    · simp [hn]
  · rw [if_neg hv]

theorem entryStep_accSize (payload : InfoRecord → Nat) (trunc : Msg)
    (pushRec : ValidateResults → InfoRecord → ValidateResults) (a : ErrAcc) (r : InfoRecord) :
    (entryStep payload trunc pushRec a r).accSize = a.accSize + payload r := rfl

theorem entryStep_warned (payload : InfoRecord → Nat) (trunc : Msg)
    (pushRec : ValidateResults → InfoRecord → ValidateResults) (a : ErrAcc) (r : InfoRecord) :
    (entryStep payload trunc pushRec a r).warned =
      if a.accSize + payload r ≤ kErrorSize then a.warned else true := by
  unfold entryStep
  by_cases h : a.accSize + payload r ≤ kErrorSize
  · simp [h]
  · by_cases hw : a.warned = false
    · simp [h, hw]
    · have hw' : a.warned = true := by revert hw; cases a.warned <;> simp
      simp [h, hw, hw']

theorem entryStep_vmap (payload : InfoRecord → Nat) (trunc : Msg)
    (pushRec : ValidateResults → InfoRecord → ValidateResults) (a : ErrAcc) (r : InfoRecord)
    (n : String) :
    (entryStep payload trunc pushRec a r).vmap n =
      if n = r.indexName then false else a.vmap n := by
  unfold entryStep
  exact markInvalid_vmap a.vmap _ r.indexName n

theorem entryStep_warnings (payload : InfoRecord → Nat) (trunc : Msg)
    (pushRec : ValidateResults → InfoRecord → ValidateResults)
    (hpush : ∀ res r, (pushRec res r).warnings = res.warnings) (a : ErrAcc) (r : InfoRecord) :
    (entryStep payload trunc pushRec a r).results.warnings = a.results.warnings := by
  unfold entryStep
  rw [markInvalid_warnings]
  by_cases h : a.accSize + payload r ≤ kErrorSize
  · simp [h, hpush]
  · by_cases hw : a.warned = false
    · simp [h, hw]
    · simp [h, hw]

theorem entryStep_errors (payload : InfoRecord → Nat) (trunc : Msg)
    (pushRec : ValidateResults → InfoRecord → ValidateResults)
    (hpush : ∀ res r, (pushRec res r).errors = res.errors) (a : ErrAcc) (r : InfoRecord) :
    (entryStep payload trunc pushRec a r).results.errors =
      (a.results.errors ++
        (if a.accSize + payload r ≤ kErrorSize then []
         else if a.warned = false then [trunc] else [])) ++
        (if a.vmap r.indexName = true then [Msg.indexInconsistent r.indexName] else []) := by
  unfold entryStep
  rw [markInvalid_errors]
  by_cases h : a.accSize + payload r ≤ kErrorSize
  · simp [h, hpush]
  · by_cases hw : a.warned = false
    · simp [h, hw]
    · simp [h, hw]

theorem missingStep_recs (a : ErrAcc) (r : InfoRecord) :
    (missingStep a r).results.missingIndexEntries =
      a.results.missingIndexEntries ++
        (if a.accSize + missingPayloadSize r ≤ kErrorSize then [r] else []) := by
  unfold missingStep entryStep
  rw [markInvalid_missing]
  by_cases h : a.accSize + missingPayloadSize r ≤ kErrorSize
  · simp [h]
  · by_cases hw : a.warned = false
    · simp [h, hw]
    · simp [h, hw]

theorem missingStep_keeps_extra (a : ErrAcc) (r : InfoRecord) :
    (missingStep a r).results.extraIndexEntries = a.results.extraIndexEntries := by
  unfold missingStep entryStep
  rw [markInvalid_extra]
  by_cases h : a.accSize + missingPayloadSize r ≤ kErrorSize
  · simp [h]
  · by_cases hw : a.warned = false
    · simp [h, hw]
    · simp [h, hw]

theorem extraStep_recs (a : ErrAcc) (r : InfoRecord) :
    (extraStep a r).results.extraIndexEntries =
      a.results.extraIndexEntries ++
        (if a.accSize + extraPayloadSize r ≤ kErrorSize then [r] else []) := by
  unfold extraStep entryStep
  rw [markInvalid_extra]
  by_cases h : a.accSize + extraPayloadSize r ≤ kErrorSize
  · simp [h]
  · by_cases hw : a.warned = false
    · simp [h, hw]
    · simp [h, hw]

theorem extraStep_keeps_missing (a : ErrAcc) (r : InfoRecord) :
    (extraStep a r).results.missingIndexEntries = a.results.missingIndexEntries := by
  unfold extraStep entryStep
  rw [markInvalid_missing]
  by_cases h : a.accSize + extraPayloadSize r ≤ kErrorSize
  · simp [h]
  · by_cases hw : a.warned = false
    · simp [h, hw]
    · simp [h, hw]

theorem missingStep_accSize (a : ErrAcc) (r : InfoRecord) :
    (missingStep a r).accSize = a.accSize + missingPayloadSize r := rfl

theorem extraStep_accSize (a : ErrAcc) (r : InfoRecord) :
    (extraStep a r).accSize = a.accSize + extraPayloadSize r := rfl

theorem cappedSelect_cons (payload : InfoRecord → Nat) (acc : Nat) (r : InfoRecord)
    (rs : List InfoRecord) :
    cappedSelect payload acc (r :: rs) =
      if acc + payload r ≤ kErrorSize then r :: cappedSelect payload (acc + payload r) rs
      else cappedSelect payload (acc + payload r) rs := rfl

theorem exceedsCap_cons (payload : InfoRecord → Nat) (acc : Nat) (r : InfoRecord)
    (rs : List InfoRecord) :
    exceedsCap payload acc (r :: rs) =
      (decide (kErrorSize < acc + payload r) || exceedsCap payload (acc + payload r) rs) := rfl

theorem foldl_missingStep_recs :
    ∀ (rs : List InfoRecord) (a : ErrAcc),
      (rs.foldl missingStep a).results.missingIndexEntries =
        a.results.missingIndexEntries ++ cappedSelect missingPayloadSize a.accSize rs := by
  intro rs
  induction rs with
  | nil => intro a; simp [cappedSelect]
  | cons r rs ih =>
    intro a
    rw [List.foldl_cons, ih, missingStep_recs, missingStep_accSize, cappedSelect_cons]
    by_cases h : a.accSize + missingPayloadSize r ≤ kErrorSize
    · simp [h]
    · simp [h]

theorem foldl_missingStep_keeps_extra :
    ∀ (rs : List InfoRecord) (a : ErrAcc),
      (rs.foldl missingStep a).results.extraIndexEntries = a.results.extraIndexEntries := by
  intro rs
  induction rs with
  | nil => intro a; rfl
  | cons r rs ih =>
    intro a
    rw [List.foldl_cons, ih, missingStep_keeps_extra]

theorem foldl_extraStep_recs :
    ∀ (rs : List InfoRecord) (a : ErrAcc),
      (rs.foldl extraStep a).results.extraIndexEntries =
        a.results.extraIndexEntries ++ cappedSelect extraPayloadSize a.accSize rs := by
  intro rs
  induction rs with
  | nil => intro a; simp [cappedSelect]
  | cons r rs ih =>
    intro a
    rw [List.foldl_cons, ih, extraStep_recs, extraStep_accSize, cappedSelect_cons]
    by_cases h : a.accSize + extraPayloadSize r ≤ kErrorSize
    · simp [h]
    · simp [h]

theorem foldl_extraStep_keeps_missing :
    ∀ (rs : List InfoRecord) (a : ErrAcc),
      (rs.foldl extraStep a).results.missingIndexEntries =
        a.results.missingIndexEntries := by
  intro rs
  induction rs with
  | nil => intro a; rfl
  | cons r rs ih =>
    intro a
    rw [List.foldl_cons, ih, extraStep_keeps_missing]

theorem foldl_entryStep_warned (payload : InfoRecord → Nat) (trunc : Msg)
    (pushRec : ValidateResults → InfoRecord → ValidateResults) :
    ∀ (rs : List InfoRecord) (a : ErrAcc),
      (rs.foldl (entryStep payload trunc pushRec) a).warned =
        (a.warned || exceedsCap payload a.accSize rs) := by
  intro rs
  induction rs with
  | nil => intro a; simp [exceedsCap]
  | cons r rs ih =>
    intro a
    rw [List.foldl_cons, ih, entryStep_warned, entryStep_accSize, exceedsCap_cons]
    by_cases h : a.accSize + payload r ≤ kErrorSize
    · have hlt : ¬kErrorSize < a.accSize + payload r := not_lt.mpr h
      simp [h, hlt]
    · have hlt : kErrorSize < a.accSize + payload r := not_le.mp h
      simp [h, hlt]

theorem foldl_entryStep_warnings (payload : InfoRecord → Nat) (trunc : Msg)
    (pushRec : ValidateResults → InfoRecord → ValidateResults)
    (hpush : ∀ res r, (pushRec res r).warnings = res.warnings) :
    ∀ (rs : List InfoRecord) (a : ErrAcc),
      (rs.foldl (entryStep payload trunc pushRec) a).results.warnings =
        a.results.warnings := by
  intro rs
  induction rs with
  | nil => intro a; rfl
  | cons r rs ih =>
    intro a
    rw [List.foldl_cons, ih, entryStep_warnings payload trunc pushRec hpush]

theorem foldl_entryStep_vmap (payload : InfoRecord → Nat) (trunc : Msg)
    (pushRec : ValidateResults → InfoRecord → ValidateResults) :
    ∀ (rs : List InfoRecord) (a : ErrAcc) (n : String),
      (rs.foldl (entryStep payload trunc pushRec) a).vmap n =
        (a.vmap n && !(rs.any fun r => decide (r.indexName = n))) := by
  intro rs
  induction rs with
  | nil => intro a n; simp
  | cons r rs ih =>
    intro a n
    rw [List.foldl_cons, ih, entryStep_vmap]
    by_cases hn : n = r.indexName
    · subst hn
      simp
    · have hn' : ¬r.indexName = n := fun hh => hn hh.symm
      simp [hn, hn']

theorem foldl_entryStep_count_trunc (payload : InfoRecord → Nat) (trunc : Msg)
    (pushRec : ValidateResults → InfoRecord → ValidateResults)
    (hpush : ∀ res r, (pushRec res r).errors = res.errors)
    (htrunc : ∀ n, Msg.indexInconsistent n ≠ trunc) :
    ∀ (rs : List InfoRecord) (a : ErrAcc),
      (rs.foldl (entryStep payload trunc pushRec) a).results.errors.count trunc =
        a.results.errors.count trunc +
          (if a.warned = false ∧ exceedsCap payload a.accSize rs = true then 1 else 0) := by
  intro rs
  induction rs with
  | nil => intro a; simp [exceedsCap]
  | cons r rs ih =>
    intro a
    rw [List.foldl_cons, ih, entryStep_errors payload trunc pushRec hpush,
        entryStep_warned, entryStep_accSize, exceedsCap_cons]
    rw [List.count_append, List.count_append]
    have hpiece2 : (if a.vmap r.indexName = true then [Msg.indexInconsistent r.indexName]
        else []).count trunc = 0 := by
      by_cases hv : a.vmap r.indexName = true
      · simp [hv, List.count_singleton', htrunc r.indexName]
      · simp [hv]
    rw [hpiece2]
    by_cases h : a.accSize + payload r ≤ kErrorSize
    · have hlt : ¬kErrorSize < a.accSize + payload r := not_lt.mpr h
      simp [h, hlt]
    · have hlt : kErrorSize < a.accSize + payload r := not_le.mp h
      by_cases hw : a.warned = false
      · simp [h, hw, hlt, List.count_singleton']
      · simp [h, hw, hlt]

theorem foldl_entryStep_count_other (payload : InfoRecord → Nat) (trunc : Msg)
    (pushRec : ValidateResults → InfoRecord → ValidateResults)
    (hpush : ∀ res r, (pushRec res r).errors = res.errors) (m : Msg)
    (hm1 : m ≠ trunc) (hm2 : ∀ n, m ≠ Msg.indexInconsistent n) :
    ∀ (rs : List InfoRecord) (a : ErrAcc),
      (rs.foldl (entryStep payload trunc pushRec) a).results.errors.count m =
        a.results.errors.count m := by
  intro rs
  induction rs with
  | nil => intro a; rfl
  | cons r rs ih =>
    intro a
    rw [List.foldl_cons, ih, entryStep_errors payload trunc pushRec hpush]
    rw [List.count_append, List.count_append]
    have hpiece1 : (if a.accSize + payload r ≤ kErrorSize then []
        else if a.warned = false then [trunc] else []).count m = 0 := by
      by_cases h : a.accSize + payload r ≤ kErrorSize
      · simp [h]
      · by_cases hw : a.warned = false
        · simp [h, hw, List.count_singleton', hm1]
        · simp [h, hw]
    have hpiece2 : (if a.vmap r.indexName = true then [Msg.indexInconsistent r.indexName]
        else []).count m = 0 := by
      by_cases hv : a.vmap r.indexName = true
      · simp [hv, List.count_singleton', hm2 r.indexName]
      · simp [hv]
    rw [hpiece1, hpiece2]
    omega

theorem foldl_entryStep_count_inc (payload : InfoRecord → Nat) (trunc : Msg)
    (pushRec : ValidateResults → InfoRecord → ValidateResults)
    (hpush : ∀ res r, (pushRec res r).errors = res.errors)
    (htrunc : ∀ n, Msg.indexInconsistent n ≠ trunc) :
    ∀ (rs : List InfoRecord) (a : ErrAcc) (n : String),
      (rs.foldl (entryStep payload trunc pushRec) a).results.errors.count
          (Msg.indexInconsistent n) =
        a.results.errors.count (Msg.indexInconsistent n) +
          (if a.vmap n = true ∧ (rs.any fun r => decide (r.indexName = n)) = true
           then 1 else 0) := by
  intro rs
  induction rs with
  | nil => intro a n; simp
  | cons r rs ih =>
    intro a n
    rw [List.foldl_cons, ih, entryStep_errors payload trunc pushRec hpush]
    rw [List.count_append, List.count_append]
    have hpiece1 : (if a.accSize + payload r ≤ kErrorSize then []
        else if a.warned = false then [trunc] else []).count (Msg.indexInconsistent n) = 0 := by
      by_cases h : a.accSize + payload r ≤ kErrorSize
      · simp [h]
      · by_cases hw : a.warned = false
        · simp [h, hw, List.count_singleton', htrunc n]
        · simp [h, hw]
    rw [hpiece1, entryStep_vmap]
    by_cases hn : n = r.indexName
    · subst hn
      by_cases hv : a.vmap r.indexName = true
      · simp [hv, List.count_singleton']
      · simp [hv]
    · have hn' : ¬r.indexName = n := fun hh => hn hh.symm
      by_cases hv : a.vmap r.indexName = true
      · simp [hv, hn, hn', List.count_singleton']
      · simp [hv, hn, hn']

theorem finishReport_missing (s : IndexConsistency) (res : ValidateResults) :
    (finishReport s res).missingIndexEntries = res.missingIndexEntries := by
  unfold finishReport
  by_cases h1 : 0 < s.missingIndexEntries.length <;>
    by_cases h2 : 0 < (s.extraIndexEntries.map fun p => p.2.length).sum <;>
      simp [h1, h2]

theorem finishReport_extra (s : IndexConsistency) (res : ValidateResults) :
    (finishReport s res).extraIndexEntries = res.extraIndexEntries := by
  unfold finishReport
  by_cases h1 : 0 < s.missingIndexEntries.length <;>
    by_cases h2 : 0 < (s.extraIndexEntries.map fun p => p.2.length).sum <;>
      simp [h1, h2]

theorem finishReport_errors (s : IndexConsistency) (res : ValidateResults) :
    (finishReport s res).errors = res.errors := by
  unfold finishReport
  by_cases h1 : 0 < s.missingIndexEntries.length <;>
    by_cases h2 : 0 < (s.extraIndexEntries.map fun p => p.2.length).sum <;>
      simp [h1, h2]

theorem finishReport_warncount (s : IndexConsistency) (res : ValidateResults) (m : Msg)
    (hm1 : ∀ k, m ≠ Msg.detectedMissing k) (hm2 : ∀ k, m ≠ Msg.detectedExtra k) :
    (finishReport s res).warnings.count m = res.warnings.count m := by
  unfold finishReport
  by_cases h1 : 0 < s.missingIndexEntries.length <;>
    by_cases h2 : 0 < (s.extraIndexEntries.map fun p => p.2.length).sum <;>
      simp [h1, h2, List.count_append, List.count_singleton',
        hm1 s.missingIndexEntries.length, hm2 ((s.extraIndexEntries.map fun p => p.2.length).sum)]

theorem addIndexEntryErrors_ok (s : IndexConsistency) (vmap : String → Bool)
    (results : ValidateResults) (hphase : s.firstPhase = false) :
    addIndexEntryErrors s vmap results =
      .ok ((extraLoop s vmap results).vmap,
           finishReport s (extraLoop s vmap results).results) := by
  unfold addIndexEntryErrors finishReport extraLoop missingLoop
  rw [if_neg (by simp [hphase])]

theorem foldl_missingStep_count_truncMissing (rs : List InfoRecord) (a : ErrAcc) :
    (rs.foldl missingStep a).results.errors.count Msg.truncatedMissing =
      a.results.errors.count Msg.truncatedMissing +
        (if a.warned = false ∧ exceedsCap missingPayloadSize a.accSize rs = true
         then 1 else 0) :=
  foldl_entryStep_count_trunc missingPayloadSize Msg.truncatedMissing
    (fun res r => { res with missingIndexEntries := res.missingIndexEntries ++ [r] })
    (fun _ _ => rfl) (fun n => by simp) rs a

theorem foldl_missingStep_count_other (m : Msg) (hm1 : m ≠ Msg.truncatedMissing)
    (hm2 : ∀ n, m ≠ Msg.indexInconsistent n) (rs : List InfoRecord) (a : ErrAcc) :
    (rs.foldl missingStep a).results.errors.count m = a.results.errors.count m :=
  foldl_entryStep_count_other missingPayloadSize Msg.truncatedMissing
    (fun res r => { res with missingIndexEntries := res.missingIndexEntries ++ [r] })
    (fun _ _ => rfl) m hm1 hm2 rs a

theorem foldl_missingStep_count_inc (rs : List InfoRecord) (a : ErrAcc) (n : String) :
    (rs.foldl missingStep a).results.errors.count (Msg.indexInconsistent n) =
      a.results.errors.count (Msg.indexInconsistent n) +
        (if a.vmap n = true ∧ (rs.any fun r => decide (r.indexName = n)) = true
         then 1 else 0) :=
  foldl_entryStep_count_inc missingPayloadSize Msg.truncatedMissing
    (fun res r => { res with missingIndexEntries := res.missingIndexEntries ++ [r] })
    (fun _ _ => rfl) (fun k => by simp) rs a n

theorem foldl_missingStep_vmap (rs : List InfoRecord) (a : ErrAcc) (n : String) :
    (rs.foldl missingStep a).vmap n =
      (a.vmap n && !(rs.any fun r => decide (r.indexName = n))) :=
  foldl_entryStep_vmap missingPayloadSize Msg.truncatedMissing
    (fun res r => { res with missingIndexEntries := res.missingIndexEntries ++ [r] })
    rs a n

theorem foldl_missingStep_warnings (rs : List InfoRecord) (a : ErrAcc) :
    (rs.foldl missingStep a).results.warnings = a.results.warnings :=
  foldl_entryStep_warnings missingPayloadSize Msg.truncatedMissing
    (fun res r => { res with missingIndexEntries := res.missingIndexEntries ++ [r] })
    (fun _ _ => rfl) rs a

theorem foldl_extraStep_count_truncExtra (rs : List InfoRecord) (a : ErrAcc) :
    (rs.foldl extraStep a).results.errors.count Msg.truncatedExtra =
      a.results.errors.count Msg.truncatedExtra +
        (if a.warned = false ∧ exceedsCap extraPayloadSize a.accSize rs = true
         then 1 else 0) :=
  foldl_entryStep_count_trunc extraPayloadSize Msg.truncatedExtra
    (fun res r => { res with extraIndexEntries := res.extraIndexEntries ++ [r] })
    (fun _ _ => rfl) (fun n => by simp) rs a

theorem foldl_extraStep_count_other (m : Msg) (hm1 : m ≠ Msg.truncatedExtra)
    (hm2 : ∀ n, m ≠ Msg.indexInconsistent n) (rs : List InfoRecord) (a : ErrAcc) :
    (rs.foldl extraStep a).results.errors.count m = a.results.errors.count m :=
  foldl_entryStep_count_other extraPayloadSize Msg.truncatedExtra
    (fun res r => { res with extraIndexEntries := res.extraIndexEntries ++ [r] })
    (fun _ _ => rfl) m hm1 hm2 rs a

theorem foldl_extraStep_count_inc (rs : List InfoRecord) (a : ErrAcc) (n : String) :
    (rs.foldl extraStep a).results.errors.count (Msg.indexInconsistent n) =
      a.results.errors.count (Msg.indexInconsistent n) +
        (if a.vmap n = true ∧ (rs.any fun r => decide (r.indexName = n)) = true
         then 1 else 0) :=
  foldl_entryStep_count_inc extraPayloadSize Msg.truncatedExtra
    (fun res r => { res with extraIndexEntries := res.extraIndexEntries ++ [r] })
    (fun _ _ => rfl) (fun k => by simp) rs a n

theorem foldl_extraStep_vmap (rs : List InfoRecord) (a : ErrAcc) (n : String) :
    (rs.foldl extraStep a).vmap n =
      (a.vmap n && !(rs.any fun r => decide (r.indexName = n))) :=
  foldl_entryStep_vmap extraPayloadSize Msg.truncatedExtra
    (fun res r => { res with extraIndexEntries := res.extraIndexEntries ++ [r] })
    rs a n

theorem foldl_extraStep_warnings (rs : List InfoRecord) (a : ErrAcc) :
    (rs.foldl extraStep a).results.warnings = a.results.warnings :=
  foldl_entryStep_warnings extraPayloadSize Msg.truncatedExtra
    (fun res r => { res with extraIndexEntries := res.extraIndexEntries ++ [r] })
    (fun _ _ => rfl) rs a

/-- C5 (amended): `addIndexEntryErrors` appends the diagnostic records of
each category in order while the cumulative counted payload (`indexKey`,
plus `idKey` when present, for missing entries; `indexKey` alone for extra
entries) stays within the 1 MiB cap — the first record pushing the total
past the cap and everything after it are dropped while the earlier
appends are kept (`cappedSelect`); when the cap is exceeded exactly one
truncation message for that category is appended to the report's error
list, and the truncation message never appears in the warning list. -/
theorem claim5_report_size_cap (s : IndexConsistency) (vmap : String → Bool)
    (results : ValidateResults) (hphase : s.firstPhase = false) :
    ∃ vmap2 results2, addIndexEntryErrors s vmap results = .ok (vmap2, results2) ∧
      results2.missingIndexEntries =
        results.missingIndexEntries ++
          cappedSelect missingPayloadSize 0 (s.missingIndexEntries.map Prod.snd) ∧
      results2.extraIndexEntries =
        results.extraIndexEntries ++
          cappedSelect extraPayloadSize 0 ((s.extraIndexEntries.map Prod.snd).flatten) ∧
      results2.errors.count Msg.truncatedMissing =
        results.errors.count Msg.truncatedMissing +
          (if exceedsCap missingPayloadSize 0 (s.missingIndexEntries.map Prod.snd) = true
           then 1 else 0) ∧
      results2.errors.count Msg.truncatedExtra =
        results.errors.count Msg.truncatedExtra +
          (if exceedsCap extraPayloadSize 0 ((s.extraIndexEntries.map Prod.snd).flatten) = true
           then 1 else 0) ∧
      results2.warnings.count Msg.truncatedMissing =
        results.warnings.count Msg.truncatedMissing ∧
      results2.warnings.count Msg.truncatedExtra =
        results.warnings.count Msg.truncatedExtra := by
  refine ⟨_, _, addIndexEntryErrors_ok s vmap results hphase, ?_, ?_, ?_, ?_, ?_, ?_⟩
  · rw [finishReport_missing]
    unfold extraLoop
    rw [foldl_extraStep_keeps_missing]
    show (missingLoop s vmap results).results.missingIndexEntries = _
    unfold missingLoop
    rw [foldl_missingStep_recs]
  · rw [finishReport_extra]
    unfold extraLoop
    rw [foldl_extraStep_recs]
    show (missingLoop s vmap results).results.extraIndexEntries ++ _ = _
    unfold missingLoop
    rw [foldl_missingStep_keeps_extra]
  · rw [finishReport_errors]
    unfold extraLoop
    rw [foldl_extraStep_count_other Msg.truncatedMissing (by simp) (fun n => by simp)]
    show (missingLoop s vmap results).results.errors.count Msg.truncatedMissing = _
    unfold missingLoop
    rw [foldl_missingStep_count_truncMissing]
    simp
  · rw [finishReport_errors]
    unfold extraLoop
    rw [foldl_extraStep_count_truncExtra]
    show (missingLoop s vmap results).results.errors.count Msg.truncatedExtra + _ = _
    unfold missingLoop
    rw [foldl_missingStep_count_other Msg.truncatedExtra (by simp) (fun n => by simp)]
    simp
  · rw [finishReport_warncount s _ Msg.truncatedMissing (fun k => by simp) (fun k => by simp)]
    unfold extraLoop
    rw [foldl_extraStep_warnings]
    show ((missingLoop s vmap results).results.warnings).count Msg.truncatedMissing = _
    unfold missingLoop
    rw [foldl_missingStep_warnings]
  · rw [finishReport_warncount s _ Msg.truncatedExtra (fun k => by simp) (fun k => by simp)]
    unfold extraLoop
    rw [foldl_extraStep_warnings]
    show ((missingLoop s vmap results).results.warnings).count Msg.truncatedExtra = _
    unfold missingLoop
    rw [foldl_missingStep_warnings]

/-- C5 witness: the amended theorem at the concrete over-cap state
`exBig`. -/
theorem claim5_report_size_cap_witness :
    ∃ vmap2 results2,
      addIndexEntryErrors exBig (fun _ => true) emptyResults = .ok (vmap2, results2) ∧
      results2.missingIndexEntries =
        emptyResults.missingIndexEntries ++
          cappedSelect missingPayloadSize 0 (exBig.missingIndexEntries.map Prod.snd) ∧
      results2.extraIndexEntries =
        emptyResults.extraIndexEntries ++
          cappedSelect extraPayloadSize 0 ((exBig.extraIndexEntries.map Prod.snd).flatten) ∧
      results2.errors.count Msg.truncatedMissing =
        emptyResults.errors.count Msg.truncatedMissing +
          (if exceedsCap missingPayloadSize 0 (exBig.missingIndexEntries.map Prod.snd) = true
           then 1 else 0) ∧
      results2.errors.count Msg.truncatedExtra =
        emptyResults.errors.count Msg.truncatedExtra +
          (if exceedsCap extraPayloadSize 0
              ((exBig.extraIndexEntries.map Prod.snd).flatten) = true
           then 1 else 0) ∧
      results2.warnings.count Msg.truncatedMissing =
        emptyResults.warnings.count Msg.truncatedMissing ∧
      results2.warnings.count Msg.truncatedExtra =
        emptyResults.warnings.count Msg.truncatedExtra :=
  claim5_report_size_cap exBig (fun _ => true) emptyResults rfl

/-- C5 counterexample: at `exBig` (two missing entries whose counted
payloads are each exactly 1 MiB) truncation occurs — two records in, one
reported — and the one truncation message is in the report's error list
while the warning list holds none, refuting the claim that it is placed
in the warning list. -/
theorem claim5_counterexample :
    exBig.missingIndexEntries.length = 2 ∧
    (reportOf exBig (fun _ => true) emptyResults).map
      (fun res => res.missingIndexEntries.length) = some 1 ∧
    (reportOf exBig (fun _ => true) emptyResults).map
      (fun res => res.errors.count Msg.truncatedMissing) = some 1 ∧
    (reportOf exBig (fun _ => true) emptyResults).map
      (fun res => res.warnings.count Msg.truncatedMissing) = some 0 := by
  refine ⟨rfl, ?_, ?_, ?_⟩ <;> decide

/-- C6: after `addIndexEntryErrors`, an index name appearing in no
diagnostic record keeps its validity-map entry unchanged (never marked
invalid); an index name appearing in at least one diagnostic record —
whether or not that record survived the size cap, since the marking runs
on every record — ends up invalid; and at most one inconsistency error
message per index is pushed (zero when the index was already invalid), so
marking a second time has no further effect on the report. -/
theorem claim6_validity_propagation (s : IndexConsistency) (vmap : String → Bool)
    (results : ValidateResults) (hphase : s.firstPhase = false) :
    ∃ vmap2 results2, addIndexEntryErrors s vmap results = .ok (vmap2, results2) ∧
      ∀ name,
        ((allDiagnosticRecords s).any (fun r => decide (r.indexName = name)) = false →
          vmap2 name = vmap name) ∧
        ((allDiagnosticRecords s).any (fun r => decide (r.indexName = name)) = true →
          vmap2 name = false) ∧
        results2.errors.count (Msg.indexInconsistent name) =
          results.errors.count (Msg.indexInconsistent name) +
            (if vmap name = true ∧
                (allDiagnosticRecords s).any (fun r => decide (r.indexName = name)) = true
             then 1 else 0) := by
  refine ⟨_, _, addIndexEntryErrors_ok s vmap results hphase, fun name => ?_⟩
  have hvmap2 : (extraLoop s vmap results).vmap name =
      ((vmap name &&
        !((s.missingIndexEntries.map Prod.snd).any fun r => decide (r.indexName = name))) &&
        !(((s.extraIndexEntries.map Prod.snd).flatten).any fun r =>
            decide (r.indexName = name))) := by
    unfold extraLoop
    rw [foldl_extraStep_vmap]
    show ((missingLoop s vmap results).vmap name && _) = _
    unfold missingLoop
    rw [foldl_missingStep_vmap]
  have hany : (allDiagnosticRecords s).any (fun r => decide (r.indexName = name)) =
      (((s.missingIndexEntries.map Prod.snd).any fun r => decide (r.indexName = name)) ||
       (((s.extraIndexEntries.map Prod.snd).flatten).any fun r =>
          decide (r.indexName = name))) := by
    unfold allDiagnosticRecords
    rw [List.any_append]
  have hc1 : (finishReport s (extraLoop s vmap results).results).errors.count
      (Msg.indexInconsistent name) =
      (missingLoop s vmap results).results.errors.count (Msg.indexInconsistent name) +
        (if (missingLoop s vmap results).vmap name = true ∧
            (((s.extraIndexEntries.map Prod.snd).flatten).any fun r =>
              decide (r.indexName = name)) = true
         then 1 else 0) := by
    rw [finishReport_errors]
    unfold extraLoop
    rw [foldl_extraStep_count_inc]
  have hc2 : (missingLoop s vmap results).results.errors.count (Msg.indexInconsistent name) =
      results.errors.count (Msg.indexInconsistent name) +
        (if vmap name = true ∧
            ((s.missingIndexEntries.map Prod.snd).any fun r =>
              decide (r.indexName = name)) = true
         then 1 else 0) := by
    unfold missingLoop
    rw [foldl_missingStep_count_inc]
  have hv1 : (missingLoop s vmap results).vmap name =
      (vmap name &&
        !((s.missingIndexEntries.map Prod.snd).any fun r => decide (r.indexName = name))) := by
    unfold missingLoop
    rw [foldl_missingStep_vmap]
  refine ⟨?_, ?_, ?_⟩
  · intro h
    rw [hany] at h
    obtain ⟨hA, hB⟩ := Bool.or_eq_false_iff.mp h
    rw [hvmap2, hA, hB]
    simp
  · intro h
    rw [hany] at h
    rw [hvmap2]
    rcases Bool.or_eq_true_iff.mp h with hA | hB
    · rw [hA]
      simp
    · rw [hB]
      simp
  · rw [hc1, hc2, hv1, hany]
    cases hv : vmap name <;>
      cases ha2 : (s.missingIndexEntries.map Prod.snd).any fun r =>
        decide (r.indexName = name) <;>
      cases hb2 : ((s.extraIndexEntries.map Prod.snd).flatten).any fun r =>
        decide (r.indexName = name) <;>
      simp [hv, ha2, hb2]

/-- C6 witness: the theorem at `exStateMissing`, whose one diagnostic
record names the index of `exDescs[0]`. -/
theorem claim6_validity_propagation_witness :
    ∃ vmap2 results2,
      addIndexEntryErrors exStateMissing (fun _ => true) emptyResults =
        .ok (vmap2, results2) ∧
      ∀ name,
        ((allDiagnosticRecords exStateMissing).any
            (fun r => decide (r.indexName = name)) = false →
          vmap2 name = (fun _ => true) name) ∧
        ((allDiagnosticRecords exStateMissing).any
            (fun r => decide (r.indexName = name)) = true →
          vmap2 name = false) ∧
        results2.errors.count (Msg.indexInconsistent name) =
          emptyResults.errors.count (Msg.indexInconsistent name) +
            (if (fun _ => true) name = true ∧
                (allDiagnosticRecords exStateMissing).any
                  (fun r => decide (r.indexName = name)) = true
             then 1 else 0) :=
  claim6_validity_propagation exStateMissing (fun _ => true) emptyResults rfl

end Mongo
